import Mathlib

/-!
# Feature extraction of a SAT instance (features_calc.cpp)

A shallow embedding of `SolveFeaturesCalc` and of the parts of the solver it reads,
followed by the properties of the clause iterator and of the statistics stages.

Conventions of the embedding:
* `unsigned` counters are naturals reduced modulo `2^32` at every operation;
* a `double` is a value of `Dbl`: a finite value carries an exact rational (rounding and
  overflow of finite values are not modelled), the special values `+inf`, `-inf` and `NaN`
  are kept with their IEEE behaviour, so that a division by zero is visible in the result;
* a traversal that the code ends with `assert`/`exit` returns an error in `Except`.
-/

namespace CMSat

/-! ## Doubles -/

/-- A `double`: an exact finite value, plus or minus infinity, or not-a-number. -/
inductive Dbl where
  | fin (q : ℚ)
  | pinf
  | ninf
  | nan
deriving DecidableEq

namespace Dbl

/-- Conversion of an integer count to `double`. -/
def ofNat (n : Nat) : Dbl := fin (n : ℚ)

/-- Unary minus. -/
def neg : Dbl → Dbl
  | fin q => fin (-q)
  | pinf => ninf
  | ninf => pinf
  | nan => nan

/-- Addition of doubles. -/
def add : Dbl → Dbl → Dbl
  | fin a, fin b => fin (a + b)
  | nan, _ => nan
  | _, nan => nan
  | pinf, ninf => nan
  | ninf, pinf => nan
  | pinf, _ => pinf
  | _, pinf => pinf
  | ninf, _ => ninf
  | _, ninf => ninf

/-- Subtraction of doubles. -/
def sub (a b : Dbl) : Dbl := add a (neg b)

/-- The infinity with the given sign (`true` for negative). -/
def infOfSign (negative : Bool) : Dbl := if negative then ninf else pinf

/-- Sign bit of a double (`true` for negative); zero counts as positive. -/
def isNeg : Dbl → Bool
  | fin q => decide (q < 0)
  | pinf => false
  | ninf => true
  | nan => false

/-- Multiplication of doubles. -/
def mul : Dbl → Dbl → Dbl
  | fin a, fin b => fin (a * b)
  | nan, _ => nan
  | _, nan => nan
  | fin a, b => if a = 0 then nan else infOfSign (xor (decide (a < 0)) (isNeg b))
  | a, fin b => if b = 0 then nan else infOfSign (xor (isNeg a) (decide (b < 0)))
  | a, b => infOfSign (xor (isNeg a) (isNeg b))

/-- Division of doubles: a finite non-zero value over zero is an infinity, `0/0` is `NaN`. -/
def div : Dbl → Dbl → Dbl
  | fin a, fin b =>
    if b = 0 then (if a = 0 then nan else infOfSign (decide (a < 0)))
    else fin (a / b)
  | nan, _ => nan
  | _, nan => nan
  | fin _, _ => fin 0
  | a, fin b => infOfSign (xor (isNeg a) (decide (b < 0)))
  | _, _ => nan

/-- The comparison `a < b` of doubles; every comparison with `NaN` is false. -/
def lt : Dbl → Dbl → Bool
  | fin a, fin b => decide (a < b)
  | nan, _ => false
  | _, nan => false
  | ninf, ninf => false
  | ninf, _ => true
  | _, ninf => false
  | pinf, _ => false
  | _, pinf => true

/-- The comparison `a > b`. -/
def gt (a b : Dbl) : Bool := lt b a

/-- The comparison `a != b`; true as soon as one side is `NaN`. -/
def ne : Dbl → Dbl → Bool
  | fin a, fin b => decide (a ≠ b)
  | pinf, pinf => false
  | ninf, ninf => false
  | _, _ => true

/-- `std::min(a, b)`: `b` when `b < a`, else `a`. -/
def min (a b : Dbl) : Dbl := if lt b a then b else a

/-- `std::max(a, b)`: `b` when `a < b`, else `a`. -/
def max (a b : Dbl) : Dbl := if lt a b then b else a

/-- `std::sqrt`, over a square root `sq` of the non-negative finite values. -/
def sqrt (sq : ℚ → ℚ) : Dbl → Dbl
  | fin q => if q < 0 then nan else fin (sq q)
  | pinf => pinf
  | ninf => nan
  | nan => nan

/-- `std::pow(a, 2)`. -/
def pow2 (a : Dbl) : Dbl := mul a a

instance : Add Dbl := ⟨add⟩
instance : Sub Dbl := ⟨sub⟩
instance : Mul Dbl := ⟨mul⟩
instance : Div Dbl := ⟨div⟩

end Dbl

/-! ## Unsigned 32-bit counters -/

/-- Addition of `unsigned` values. -/
def uadd (a b : Nat) : Nat := (a + b) % 2 ^ 32

/-- Subtraction of `unsigned` values. -/
def usub (a b : Nat) : Nat := (a + 2 ^ 32 - b % 2 ^ 32) % 2 ^ 32

/-! ## Literals, clauses, watch entries -/

/-- Modelled from the spec: the literal type is declared outside this file. A literal is a
variable with a polarity, encoded as in `Lit::toLit(i)` by the index `i = 2 * var + sign`;
literals are totally ordered by that index. -/
structure Lit where
  x : Nat
deriving DecidableEq

namespace Lit

/-- The literal of index `i`. -/
def toLit (i : Nat) : Lit := ⟨i⟩

/-- The variable of a literal. -/
def var (l : Lit) : Nat := l.x / 2

/-- The polarity of a literal: `true` when it is negated. -/
def sign (l : Lit) : Bool := l.x % 2 == 1

instance : LT Lit := ⟨fun a b => a.x < b.x⟩

instance (a b : Lit) : Decidable (a < b) := inferInstanceAs (Decidable (a.x < b.x))

end Lit

/-- Modelled from the spec: the statistics of a clause used by the distribution stage. -/
structure ClauseStats where
  glue : Nat
  activity : Dbl

/-- Modelled from the spec: a clause body as the allocator resolves it: its literals, its
redundancy flag and its statistics. -/
structure Clause where
  lits : List Lit
  red : Bool
  stats : ClauseStats

namespace Clause

/-- Number of literals, `clause.size()`. -/
def size (c : Clause) : Nat := c.lits.length

/-- The literal `clause[i]`. -/
def get (c : Clause) (i : Nat) : Lit := c.lits.getD i ⟨0⟩

end Clause

/-- Modelled from the spec: a physical watch entry: a binary clause (the other literal), a
ternary clause (the two other literals), a reference to an arbitrary-size clause, or the
internal index marker. -/
inductive Watched where
  | binary (lit2 : Lit) (red : Bool)
  | tertiary (lit2 lit3 : Lit) (red : Bool)
  | clause (offset : Nat)
  | idx (i : Nat)
deriving DecidableEq

/-- Aggregate counters of the implicit binary and ternary clauses. -/
structure BinTriStats where
  irredBins : Nat
  irredTris : Nat

/-- Modelled from the spec: the parts of the solver state the feature calculator reads. -/
structure Solver where
  nVars : Nat
  watches : List (List Watched)
  cl_alloc : Nat → Clause
  longIrredCls : List Nat
  longRedCls0 : List Nat
  binTri : BinTriStats
  cla_inc : Dbl
  verbosity : Nat

/-- How a traversal ends when it does not return: a failed `assert`, or `exit(-1)`. -/
inductive Fault where
  | assertion
  | exit
deriving DecidableEq

instance {α : Type} [DecidableEq α] : DecidableEq (Except Fault α) := fun a b =>
  match a, b with
  | .ok x, .ok y => if h : x = y then isTrue (by rw [h]) else isFalse (fun e => h (by cases e; rfl))
  | .error x, .error y =>
    if h : x = y then isTrue (by rw [h]) else isFalse (fun e => h (by cases e; rfl))
  | .ok _, .error _ => isFalse (fun e => by cases e)
  | .error _, .ok _ => isFalse (fun e => by cases e)

/-! ## The clause iterator -/

/-- One watch entry `cl` found under the literal `lit`: calls `func_each_cl` once and
`func_each_lit` once per literal unless the entry is skipped. `ndebug` tells whether
`assert` is compiled out. -/
def for_one_clause {σ : Type} (ndebug : Bool) (solver : Solver) (cl : Watched) (lit : Lit)
    (func_each_cl : Nat → Nat → Nat → σ → σ)
    (func_each_lit : Lit → Nat → Nat → Nat → σ → σ) (st : σ) : Except Fault σ :=
  match cl with
  | .binary lit2 red =>
    if red then .ok st
    else if lit > lit2 then .ok st
    else
      let pos_vars := uadd 0 (!lit.sign).toNat
      let pos_vars := uadd pos_vars (!lit2.sign).toNat
      let size := 2
      let neg_vars := usub size pos_vars
      let st := func_each_cl size pos_vars neg_vars st
      let st := func_each_lit lit size pos_vars neg_vars st
      let st := func_each_lit lit2 size pos_vars neg_vars st
      .ok st
  | .tertiary lit2 lit3 red =>
    if red then .ok st
    else if lit > lit2 then .ok st
    else if !ndebug && !decide (lit2 < lit3) then .error .assertion
    else
      let pos_vars := uadd 0 (!lit.sign).toNat
      let pos_vars := uadd pos_vars (!lit2.sign).toNat
      let pos_vars := uadd pos_vars (!lit3.sign).toNat
      let size := 3
      let neg_vars := usub size pos_vars
      let st := func_each_cl size pos_vars neg_vars st
      let st := func_each_lit lit size pos_vars neg_vars st
      let st := func_each_lit lit2 size pos_vars neg_vars st
      let st := func_each_lit lit3 size pos_vars neg_vars st
      .ok st
  | .clause offset =>
    let clause := solver.cl_alloc offset
    if clause.red then .ok st
    else if clause.get 0 < clause.get 1 then .ok st
    else
      let pos_vars := clause.lits.foldl (fun p cl_lit => uadd p (!cl_lit.sign).toNat) 0
      let size := clause.size
      let neg_vars := usub size pos_vars
      let st := func_each_cl size pos_vars neg_vars st
      .ok (clause.lits.foldl (fun st cl_lit => func_each_lit cl_lit size pos_vars neg_vars st) st)
  | .idx _ => .error (if ndebug then .exit else .assertion)

/-- The watch list of the literal of index `i`. -/
def Solver.watchesOf (solver : Solver) (i : Nat) : List Watched := solver.watches.getD i []

/-- Every literal index below `2 * nVars`, and under it every watch entry, in order. -/
def for_all_clauses {σ : Type} (ndebug : Bool) (solver : Solver)
    (func_each_cl : Nat → Nat → Nat → σ → σ)
    (func_each_lit : Lit → Nat → Nat → Nat → σ → σ) (st : σ) : Except Fault σ :=
  (List.range (solver.nVars * 2)).foldlM (fun st i =>
    let lit := Lit.toLit i
    (solver.watchesOf i).foldlM (fun st w =>
      for_one_clause ndebug solver w lit func_each_cl func_each_lit st) st) st

/-! ## Callback traces -/

/-- One callback invocation with its arguments. -/
inductive Call where
  | each_cl (size pos_vars neg_vars : Nat)
  | each_lit (lit : Lit) (size pos_vars neg_vars : Nat)
deriving DecidableEq

/-- Per-clause callback that records its invocation. -/
def Call.rec_cl (size pos_vars neg_vars : Nat) (t : List Call) : List Call :=
  t ++ [Call.each_cl size pos_vars neg_vars]

/-- Per-literal callback that records its invocation. -/
def Call.rec_lit (lit : Lit) (size pos_vars neg_vars : Nat) (t : List Call) : List Call :=
  t ++ [Call.each_lit lit size pos_vars neg_vars]

/-- The callback invocations of one watch entry, in order. -/
def oneTrace (ndebug : Bool) (solver : Solver) (cl : Watched) (lit : Lit) :
    Except Fault (List Call) :=
  for_one_clause ndebug solver cl lit Call.rec_cl Call.rec_lit []

/-- The callback invocations of a whole traversal, in order. -/
def allTrace (ndebug : Bool) (solver : Solver) : Except Fault (List Call) :=
  for_all_clauses ndebug solver Call.rec_cl Call.rec_lit []

/-- Whether an invocation is one of the per-clause callback. -/
def Call.isCl : Call → Bool
  | .each_cl _ _ _ => true
  | .each_lit _ _ _ _ => false

/-- Number of per-clause callback invocations in a trace. -/
def clCalls (t : List Call) : Nat := t.countP Call.isCl

/-! ## The feature record and the calculator -/

/-- Modelled from the spec: the per-variable accumulator: positive occurrences, occurrences,
occurrences in Horn clauses. -/
structure VARIABLE where
  numPos : Nat
  size : Nat
  horn : Nat
deriving DecidableEq

/-- A freshly allocated accumulator. -/
def VARIABLE.zero : VARIABLE := ⟨0, 0, 0⟩

/-- Modelled from the spec: the summary of one clause population. -/
structure Distrib where
  glue_distr_mean : Dbl
  glue_distr_var : Dbl
  size_distr_mean : Dbl
  size_distr_var : Dbl
  activity_distr_mean : Dbl
  activity_distr_var : Dbl
deriving DecidableEq

/-- The summary of a fresh record. -/
def Distrib.zero : Distrib := ⟨.fin 0, .fin 0, .fin 0, .fin 0, .fin 0, .fin 0⟩

/-- Modelled from the spec: the feature record, declared outside this file, with the fields
the calculator reads and writes. -/
structure SolveFeatures where
  eps : Dbl
  numVars : Nat
  numClauses : Nat
  var_cl_ratio : Dbl
  binary : Dbl
  trinary : Dbl
  horn : Dbl
  horn_min : Dbl
  horn_max : Dbl
  horn_spread : Dbl
  horn_mean : Dbl
  horn_std : Dbl
  vcg_var_min : Dbl
  vcg_var_max : Dbl
  vcg_var_spread : Dbl
  vcg_var_mean : Dbl
  vcg_var_std : Dbl
  vcg_cls_min : Dbl
  vcg_cls_max : Dbl
  vcg_cls_spread : Dbl
  vcg_cls_mean : Dbl
  vcg_cls_std : Dbl
  pnr_var_min : Dbl
  pnr_var_max : Dbl
  pnr_var_spread : Dbl
  pnr_var_mean : Dbl
  pnr_var_std : Dbl
  pnr_cls_min : Dbl
  pnr_cls_max : Dbl
  pnr_cls_spread : Dbl
  pnr_cls_mean : Dbl
  pnr_cls_std : Dbl
  red_cl_distrib : Distrib
  irred_cl_distrib : Distrib
deriving DecidableEq

/-- Modelled from the spec: the record as constructed, every minimum at the sentinel `hi`,
every maximum at the sentinel `lo`, everything else zero. -/
def SolveFeatures.fresh (eps hi lo : Dbl) : SolveFeatures where
  eps := eps
  numVars := 0
  numClauses := 0
  var_cl_ratio := .fin 0
  binary := .fin 0
  trinary := .fin 0
  horn := .fin 0
  horn_min := hi
  horn_max := lo
  horn_spread := .fin 0
  horn_mean := .fin 0
  horn_std := .fin 0
  vcg_var_min := hi
  vcg_var_max := lo
  vcg_var_spread := .fin 0
  vcg_var_mean := .fin 0
  vcg_var_std := .fin 0
  vcg_cls_min := hi
  vcg_cls_max := lo
  vcg_cls_spread := .fin 0
  vcg_cls_mean := .fin 0
  vcg_cls_std := .fin 0
  pnr_var_min := hi
  pnr_var_max := lo
  pnr_var_spread := .fin 0
  pnr_var_mean := .fin 0
  pnr_var_std := .fin 0
  pnr_cls_min := hi
  pnr_cls_max := lo
  pnr_cls_spread := .fin 0
  pnr_cls_mean := .fin 0
  pnr_cls_std := .fin 0
  red_cl_distrib := Distrib.zero
  irred_cl_distrib := Distrib.zero

/-- The calculator object: the record being filled and the per-variable accumulators. -/
structure SolveFeaturesCalc where
  feat : SolveFeatures
  myVars : List VARIABLE
deriving DecidableEq

/-- A calculator as constructed: a fresh record and no accumulator yet. -/
def SolveFeaturesCalc.fresh (eps hi lo : Dbl) : SolveFeaturesCalc :=
  ⟨SolveFeatures.fresh eps hi lo, []⟩

/-- The update `v[i] = f(v[i])`; an index outside the vector changes nothing. -/
def modifyAt {α : Type} (f : α → α) : Nat → List α → List α
  | _, [] => []
  | 0, x :: xs => f x :: xs
  | n + 1, x :: xs => x :: modifyAt f n xs

/-- The call `v.resize(n)`: truncates, or appends fresh accumulators. -/
def resize (v : List VARIABLE) (n : Nat) : List VARIABLE :=
  v.take n ++ List.replicate (n - v.length) VARIABLE.zero

/-- Guarded division of two counts, `float_div`: zero when the divisor is zero.
Modelled from the spec: the helper is declared outside this file. -/
def float_div (a b : Dbl) : Dbl := if Dbl.ne b (.fin 0) then a / b else .fin 0

/-- The positive/negative ratio `0.5 + (2.0 * pos - size) / (2.0 * size)`. -/
def pnr (pos size : Dbl) : Dbl :=
  Dbl.fin (1 / 2) + ((Dbl.fin 2 * pos - size) / (Dbl.fin 2 * size))

/-! ### `fill_vars_cls` -/

/-- Per-clause callback of `fill_vars_cls`. -/
def fill_vars_cls.func_each_cl (_size pos_vars _neg_vars : Nat) (c : SolveFeaturesCalc) :
    SolveFeaturesCalc :=
  if pos_vars ≤ 1 then { c with feat := { c.feat with horn := c.feat.horn + Dbl.fin 1 } }
  else c

/-- Per-literal callback of `fill_vars_cls`. -/
def fill_vars_cls.func_each_lit (lit : Lit) (_size pos_vars _neg_vars : Nat)
    (c : SolveFeaturesCalc) : SolveFeaturesCalc :=
  let myVars := c.myVars
  let myVars :=
    if pos_vars ≤ 1 then modifyAt (fun v => { v with horn := v.horn + 1 }) lit.var myVars
    else myVars
  let myVars :=
    if !lit.sign then modifyAt (fun v => { v with numPos := v.numPos + 1 }) lit.var myVars
    else myVars
  let myVars := modifyAt (fun v => { v with size := v.size + 1 }) lit.var myVars
  { c with myVars := myVars }

/-- The accumulation pass. -/
def fill_vars_cls (ndebug : Bool) (solver : Solver) (c : SolveFeaturesCalc) :
    Except Fault SolveFeaturesCalc :=
  let feat := { c.feat with numVars := solver.nVars }
  let feat := { feat with
    numClauses := solver.longIrredCls.length + solver.binTri.irredBins
      + solver.binTri.irredTris }
  let c : SolveFeaturesCalc := { feat := feat, myVars := resize c.myVars solver.nVars }
  for_all_clauses ndebug solver fill_vars_cls.func_each_cl fill_vars_cls.func_each_lit c

/-! ### `calculate_clause_stats` -/

/-- The per-literal callback that does nothing. -/
def empty_func {σ : Type} (_lit : Lit) (_size _pos_vars _neg_vars : Nat) (st : σ) : σ := st

/-- Per-clause callback of `calculate_clause_stats`. -/
def calculate_clause_stats.func_each_cl (size pos_vars _neg_vars : Nat)
    (feat : SolveFeatures) : SolveFeatures :=
  if size = 0 then feat
  else
    let _size := Dbl.ofNat size / Dbl.ofNat feat.numVars
    let feat := { feat with vcg_cls_min := Dbl.min feat.vcg_cls_min _size }
    let feat := { feat with vcg_cls_max := Dbl.max feat.vcg_cls_max _size }
    let feat := { feat with vcg_cls_mean := feat.vcg_cls_mean + _size }
    let _pnr := pnr (Dbl.ofNat pos_vars) (Dbl.ofNat size)
    let feat := { feat with pnr_cls_min := Dbl.min feat.pnr_cls_min _pnr }
    let feat := { feat with pnr_cls_max := Dbl.min feat.pnr_cls_max _pnr }
    let feat := { feat with pnr_cls_mean := feat.pnr_cls_mean + _pnr }
    feat

/-- What `calculate_clause_stats` does once its traversal is over. -/
def calculate_clause_stats.finish (solver : Solver) (feat : SolveFeatures) : SolveFeatures :=
  let feat := { feat with vcg_cls_mean := feat.vcg_cls_mean / Dbl.ofNat feat.numClauses }
  let feat := { feat with pnr_cls_mean := feat.pnr_cls_mean / Dbl.ofNat feat.numClauses }
  let feat := { feat with horn := feat.horn / Dbl.ofNat feat.numClauses }
  let feat := { feat with
    binary := float_div (Dbl.ofNat solver.binTri.irredBins) (Dbl.ofNat feat.numClauses) }
  let feat := { feat with
    trinary := float_div (Dbl.ofNat solver.binTri.irredTris) (Dbl.ofNat feat.numClauses) }
  let feat := { feat with vcg_cls_spread := feat.vcg_cls_max - feat.vcg_cls_min }
  let feat := { feat with pnr_cls_spread := feat.pnr_cls_max - feat.pnr_cls_min }
  feat

/-- The clause first-moment stage. -/
def calculate_clause_stats (ndebug : Bool) (solver : Solver) (c : SolveFeaturesCalc) :
    Except Fault SolveFeaturesCalc := do
  let feat ← for_all_clauses ndebug solver calculate_clause_stats.func_each_cl empty_func c.feat
  pure { c with feat := calculate_clause_stats.finish solver feat }

/-! ### `calculate_variable_stats` -/

/-- Body of the loop of `calculate_variable_stats` for one accumulator. -/
def calculate_variable_stats.body (feat : SolveFeatures) (v : VARIABLE) : SolveFeatures :=
  if v.size = 0 then feat
  else
    let _size := Dbl.ofNat v.size / Dbl.ofNat feat.numClauses
    let feat := { feat with vcg_var_min := Dbl.min feat.vcg_var_min _size }
    let feat := { feat with vcg_var_max := Dbl.min feat.vcg_var_max _size }
    let feat := { feat with vcg_var_mean := feat.vcg_var_mean + _size }
    let _pnr := pnr (Dbl.ofNat v.numPos) (Dbl.ofNat v.size)
    let feat := { feat with pnr_var_min := Dbl.min feat.pnr_var_min _pnr }
    let feat := { feat with pnr_var_max := Dbl.min feat.pnr_var_max _pnr }
    let feat := { feat with pnr_var_mean := feat.pnr_var_mean + _pnr }
    let _horn := Dbl.ofNat v.horn / Dbl.ofNat feat.numClauses
    let feat := { feat with horn_min := Dbl.min feat.horn_max _horn }
    let feat := { feat with horn_max := Dbl.min feat.horn_max _horn }
    let feat := { feat with horn_mean := feat.horn_mean + _horn }
    feat

/-- What `calculate_variable_stats` does once its loop is over. -/
def calculate_variable_stats.finish (feat : SolveFeatures) : SolveFeatures :=
  let feat :=
    if Dbl.gt feat.vcg_var_mean (.fin 0) then
      { feat with vcg_var_mean := feat.vcg_var_mean / Dbl.ofNat feat.numVars }
    else feat
  let feat :=
    if Dbl.gt feat.pnr_var_mean (.fin 0) then
      { feat with pnr_var_mean := feat.pnr_var_mean / Dbl.ofNat feat.numVars }
    else feat
  let feat :=
    if Dbl.gt feat.horn_mean (.fin 0) then
      { feat with horn_mean := feat.horn_mean / Dbl.ofNat feat.numVars }
    else feat
  let feat := { feat with vcg_var_spread := feat.vcg_var_max - feat.vcg_var_min }
  let feat := { feat with pnr_var_spread := feat.pnr_var_max - feat.pnr_var_min }
  let feat := { feat with horn_spread := feat.horn_max - feat.horn_min }
  feat

/-- The variable first-moment stage. -/
def calculate_variable_stats (c : SolveFeaturesCalc) : SolveFeaturesCalc :=
  if c.feat.numVars = 0 then c
  else
    let feat := c.myVars.foldl calculate_variable_stats.body c.feat
    { c with feat := calculate_variable_stats.finish feat }

/-! ### `calculate_extra_clause_stats` -/

/-- Per-clause callback of `calculate_extra_clause_stats`. -/
def calculate_extra_clause_stats.each_clause (size pos_vars _neg_vars : Nat)
    (feat : SolveFeatures) : SolveFeatures :=
  if size = 0 then feat
  else
    let _size := Dbl.ofNat size / Dbl.ofNat feat.numVars
    let feat := { feat with
      vcg_cls_std := feat.vcg_cls_std
        + (feat.vcg_cls_mean - _size) * (feat.vcg_cls_mean - _size) }
    let _pnr := pnr (Dbl.ofNat pos_vars) (Dbl.ofNat size)
    let feat := { feat with
      pnr_cls_std := feat.pnr_cls_std
        + (feat.pnr_cls_mean - _pnr) * (feat.pnr_cls_mean - _pnr) }
    feat

/-- What `calculate_extra_clause_stats` does once its traversal is over. -/
def calculate_extra_clause_stats.finish (sq : ℚ → ℚ) (feat : SolveFeatures) :
    SolveFeatures :=
  let feat :=
    if Dbl.gt feat.vcg_cls_std feat.eps && Dbl.gt feat.vcg_cls_mean feat.eps then
      { feat with
        vcg_cls_std :=
          Dbl.sqrt sq (feat.vcg_cls_std / Dbl.ofNat feat.numClauses) / feat.vcg_cls_mean }
    else { feat with vcg_cls_std := .fin 0 }
  let feat :=
    if Dbl.gt feat.pnr_cls_std feat.eps && Dbl.gt feat.pnr_cls_mean feat.eps then
      { feat with
        pnr_cls_std :=
          Dbl.sqrt sq (feat.pnr_cls_std / Dbl.ofNat feat.numClauses) / feat.pnr_cls_mean }
    else { feat with pnr_cls_std := .fin 0 }
  feat

/-- The clause second-moment stage. -/
def calculate_extra_clause_stats (sq : ℚ → ℚ) (ndebug : Bool) (solver : Solver)
    (c : SolveFeaturesCalc) : Except Fault SolveFeaturesCalc := do
  let feat ←
    for_all_clauses ndebug solver calculate_extra_clause_stats.each_clause empty_func c.feat
  pure { c with feat := calculate_extra_clause_stats.finish sq feat }

/-! ### `calculate_extra_var_stats` -/

/-- Body of the loop of `calculate_extra_var_stats` for one accumulator. -/
def calculate_extra_var_stats.body (feat : SolveFeatures) (v : VARIABLE) : SolveFeatures :=
  if v.size = 0 then feat
  else
    let _size := Dbl.ofNat v.size / Dbl.ofNat feat.numClauses
    let feat := { feat with
      vcg_var_std := feat.vcg_var_std
        + (feat.vcg_var_mean - _size) * (feat.vcg_var_mean - _size) }
    let _pnr := pnr (Dbl.ofNat v.numPos) (Dbl.ofNat v.size)
    let feat := { feat with
      pnr_var_std := feat.pnr_var_std
        + (feat.pnr_var_mean - _pnr) * (feat.pnr_var_mean - _pnr) }
    let _horn := Dbl.ofNat v.horn / Dbl.ofNat feat.numClauses
    let feat := { feat with
      horn_std := feat.horn_std + (feat.horn_mean - _horn) * (feat.horn_mean - _horn) }
    feat

/-- What `calculate_extra_var_stats` does once its loop is over. -/
def calculate_extra_var_stats.finish (sq : ℚ → ℚ) (feat : SolveFeatures) : SolveFeatures :=
  let feat :=
    if Dbl.gt feat.vcg_var_std feat.eps && Dbl.gt feat.vcg_var_mean feat.eps then
      { feat with
        vcg_var_std :=
          Dbl.sqrt sq (feat.vcg_var_std / Dbl.ofNat feat.numVars) / feat.vcg_var_mean }
    else { feat with vcg_var_std := .fin 0 }
  let feat :=
    if Dbl.gt feat.pnr_var_std feat.eps && Dbl.gt feat.pnr_var_mean feat.eps
        && Dbl.ne feat.pnr_var_mean (.fin 0) then
      { feat with
        pnr_var_std :=
          Dbl.sqrt sq (feat.pnr_var_std / Dbl.ofNat feat.numVars) / feat.pnr_var_mean }
    else { feat with pnr_var_std := .fin 0 }
  let feat :=
    if Dbl.gt (feat.horn_std / Dbl.ofNat feat.numVars) feat.eps
        && Dbl.gt feat.horn_mean feat.eps && Dbl.ne feat.horn_mean (.fin 0) then
      { feat with
        horn_std := Dbl.sqrt sq (feat.horn_std / Dbl.ofNat feat.numVars) / feat.horn_mean }
    else { feat with horn_std := .fin 0 }
  feat

/-- The variable second-moment stage. -/
def calculate_extra_var_stats (sq : ℚ → ℚ) (c : SolveFeaturesCalc) : SolveFeaturesCalc :=
  if c.feat.numVars = 0 then c
  else
    let feat := c.myVars.foldl calculate_extra_var_stats.body c.feat
    { c with feat := calculate_extra_var_stats.finish sq feat }

/-! ### `calculate_cl_distributions` -/

/-- The clause-population distribution stage. -/
def calculate_cl_distributions (solver : Solver) (clauses : List Nat)
    (distrib_data : Distrib) : Distrib :=
  if clauses.isEmpty then distrib_data
  else
    let cla_inc := solver.cla_inc
    let n := Dbl.ofNat clauses.length
    let size_mean :=
      clauses.foldl (fun m off => m + Dbl.ofNat (solver.cl_alloc off).size) (.fin 0)
    let glue_mean :=
      clauses.foldl (fun m off => m + Dbl.ofNat (solver.cl_alloc off).stats.glue) (.fin 0)
    let activity_mean :=
      clauses.foldl (fun m off => m + (solver.cl_alloc off).stats.activity / cla_inc) (.fin 0)
    let size_mean := size_mean / n
    let glue_mean := glue_mean / n
    let activity_mean := activity_mean / n
    let size_var :=
      clauses.foldl
        (fun v off => v + Dbl.pow2 (size_mean - Dbl.ofNat (solver.cl_alloc off).size))
        (.fin 0)
    let glue_var :=
      clauses.foldl
        (fun v off => v + Dbl.pow2 (glue_mean - Dbl.ofNat (solver.cl_alloc off).stats.glue))
        (.fin 0)
    let activity_var :=
      clauses.foldl
        (fun v off =>
          v + Dbl.pow2 (activity_mean - (solver.cl_alloc off).stats.activity / cla_inc))
        (.fin 0)
    let size_var := size_var / n
    let glue_var := glue_var / n
    let activity_var := activity_var / n
    { glue_distr_mean := glue_mean
      glue_distr_var := glue_var
      size_distr_mean := size_mean
      size_distr_var := size_var
      activity_distr_mean := activity_mean
      activity_distr_var := activity_var }

/-! ### `extract` -/

/-- What one call of `extract` leaves behind: the record returned by value, the calculator
afterwards, and the elapsed time printed when the verbosity is set. -/
structure Extracted where
  result : SolveFeatures
  after : SolveFeaturesCalc
  printed : Option Dbl

/-- The count of the active variables and the variable/clause ratio, in `extract`. -/
def extract.active_vars (c : SolveFeaturesCalc) : SolveFeaturesCalc :=
  let feat : SolveFeatures := { c.feat with numVars := 0 }
  let feat : SolveFeatures := { feat with
    numVars := c.myVars.foldl (fun n v => if v.size > 0 then n + 1 else n) feat.numVars }
  let feat : SolveFeatures :=
    if feat.numVars > 0 then
      { feat with var_cl_ratio := Dbl.ofNat feat.numVars / Dbl.ofNat feat.numClauses }
    else feat
  { c with feat := feat }

/-- The two calls of `calculate_cl_distributions`, in `extract`. -/
def extract.distributions (solver : Solver) (c : SolveFeaturesCalc) : SolveFeaturesCalc :=
  let c := { c with
    feat := { c.feat with
      red_cl_distrib :=
        calculate_cl_distributions solver solver.longRedCls0 c.feat.red_cl_distrib } }
  let c := { c with
    feat := { c.feat with
      irred_cl_distrib :=
        calculate_cl_distributions solver solver.longIrredCls c.feat.irred_cl_distrib } }
  c

/-- The orchestrator. `start_time` and `end_time` are the two readings of `cpuTime()`. -/
def extract (sq : ℚ → ℚ) (ndebug : Bool) (solver : Solver) (start_time end_time : Dbl)
    (c : SolveFeaturesCalc) : Except Fault Extracted := do
  let c ← fill_vars_cls ndebug solver c
  let c := extract.active_vars c
  let c ← calculate_clause_stats ndebug solver c
  let c := calculate_variable_stats c
  let c ← calculate_extra_clause_stats sq ndebug solver c
  let c := calculate_extra_var_stats sq c
  let c := extract.distributions solver c
  let printed := if solver.verbosity ≠ 0 then some (end_time - start_time) else none
  pure { result := c.feat, after := c, printed := printed }

/-! ## Replaying a trace -/

/-- One recorded invocation applied to a state through the callbacks. -/
def Call.apply {σ : Type} (f : Nat → Nat → Nat → σ → σ) (g : Lit → Nat → Nat → Nat → σ → σ)
    (st : σ) : Call → σ
  | .each_cl a b c => f a b c st
  | .each_lit l a b c => g l a b c st

/-- A trace applied to a state through the callbacks. -/
def replay {σ : Type} (f : Nat → Nat → Nat → σ → σ) (g : Lit → Nat → Nat → Nat → σ → σ)
    (st : σ) (t : List Call) : σ :=
  t.foldl (Call.apply f g) st

/-- The invocations of a clause with literals `lits`. -/
def callsOf (size pos_vars neg_vars : Nat) (lits : List Lit) : List Call :=
  .each_cl size pos_vars neg_vars :: lits.map (fun l => .each_lit l size pos_vars neg_vars)

/-- The invocations made under one literal index. -/
def litTrace (ndebug : Bool) (solver : Solver) (i : Nat) : Except Fault (List Call) :=
  (solver.watchesOf i).foldlM (fun t w =>
    for_one_clause ndebug solver w (Lit.toLit i) Call.rec_cl Call.rec_lit t) []

/-! ## Vocabulary of the properties -/

/-- Whether a watch entry is marked redundant: the flag of a binary or ternary entry, the
flag of the resolved clause for an arbitrary-size entry. -/
def Watched.isRed (solver : Solver) : Watched → Bool
  | .binary _ red => red
  | .tertiary _ _ red => red
  | .clause offset => (solver.cl_alloc offset).red
  | .idx _ => false

/-- The solver with every redundant watch entry removed from the watch index. -/
def Solver.dropRed (solver : Solver) : Solver :=
  { solver with watches := solver.watches.map (List.filter (fun w => !w.isRed solver)) }

/-- The literals of the clause that the entry `cl`, found under `lit`, stands for. -/
def entryLits (solver : Solver) (cl : Watched) (lit : Lit) : List Lit :=
  match cl with
  | .binary lit2 _ => [lit, lit2]
  | .tertiary lit2 lit3 _ => [lit, lit2, lit3]
  | .clause offset => (solver.cl_alloc offset).lits
  | .idx _ => []

/-- Number of non-negated literals. -/
def posCount (lits : List Lit) : Nat := lits.countP (fun l => !l.sign)

/-- The two other literals of a ternary clause in the order a watch entry stores them. -/
def sortPair (a b : Lit) : Lit × Lit := if b < a then (b, a) else (a, b)

/-- What the watch index owes to the entry `w` found under `lit`: distinct literals, the
mirror entries of a binary or ternary clause under its other literals (a ternary entry with
`lit2 < lit3`), an arbitrary-size clause of distinct literals watched by one of its first two
literals and, when irredundant, listed among the irredundant clauses; no index marker. -/
def entryOk (solver : Solver) (lit : Lit) (w : Watched) : Bool :=
  match w with
  | .binary lit2 red =>
    decide (lit ≠ lit2) && decide (lit2.x < solver.nVars * 2)
      && ((solver.watchesOf lit2.x).count (.binary lit red) == (solver.watchesOf lit.x).count w)
  | .tertiary lit2 lit3 red =>
    decide (lit ≠ lit2) && decide (lit ≠ lit3) && decide (lit2 < lit3)
      && decide (lit3.x < solver.nVars * 2)
      && ((solver.watchesOf lit2.x).count
            (.tertiary (sortPair lit lit3).1 (sortPair lit lit3).2 red)
          == (solver.watchesOf lit.x).count w)
      && ((solver.watchesOf lit3.x).count
            (.tertiary (sortPair lit lit2).1 (sortPair lit lit2).2 red)
          == (solver.watchesOf lit.x).count w)
  | .clause offset =>
    let c := solver.cl_alloc offset
    decide c.lits.Nodup && decide (3 ≤ c.size) && decide (c.size < 2 ^ 32)
      && c.lits.all (fun l => decide (l.x < solver.nVars * 2))
      && (decide (lit = c.get 0) || decide (lit = c.get 1))
      && (c.red || solver.longIrredCls.contains offset)
  | .idx _ => false

/-- Number of irredundant binary entries in a watch list. -/
def irredBinEntries (ws : List Watched) : Nat :=
  ws.countP (fun w => match w with
    | .binary _ red => !red
    | _ => false)

/-- Number of irredundant ternary entries in a watch list. -/
def irredTriEntries (ws : List Watched) : Nat :=
  ws.countP (fun w => match w with
    | .tertiary _ _ red => !red
    | _ => false)

/-- A well-formed watch index: one watch list per literal, every entry as `entryOk` asks,
every irredundant arbitrary-size clause listed once and watched exactly once under each of
its first two literals, and the aggregate counters equal to the numbers of irredundant
binary and ternary clauses (each clause has one entry per literal). -/
def wellFormed (solver : Solver) : Bool :=
  decide (solver.watches.length = solver.nVars * 2)
    && (List.range (solver.nVars * 2)).all (fun i =>
        (solver.watchesOf i).all (fun w => entryOk solver (Lit.toLit i) w))
    && decide solver.longIrredCls.Nodup
    && solver.longIrredCls.all (fun offset =>
        let c := solver.cl_alloc offset
        !c.red && (solver.watchesOf (c.get 0).x).count (.clause offset) == 1
          && (solver.watchesOf (c.get 1).x).count (.clause offset) == 1)
    && decide (solver.binTri.irredBins * 2
        = ((List.range (solver.nVars * 2)).map
            (fun i => irredBinEntries (solver.watchesOf i))).sum)
    && decide (solver.binTri.irredTris * 3
        = ((List.range (solver.nVars * 2)).map
            (fun i => irredTriEntries (solver.watchesOf i))).sum)

/-- The calculator as `new SolveFeaturesCalc(solver)` leaves it, with the sentinels
`+inf` and `-inf` and the epsilon `0.00001`. -/
def freshCalc : SolveFeaturesCalc := SolveFeaturesCalc.fresh (.fin (1 / 100000)) .pinf .ninf

/-! ## Example solver states -/

/-- Clause statistics of an original clause. -/
def noStats : ClauseStats := ⟨0, .fin 0⟩

/-- Two variables and the one irredundant binary clause `(x0 or x1)`. -/
def exBinary : Solver where
  nVars := 2
  watches := [[.binary ⟨2⟩ false], [], [.binary ⟨0⟩ false], []]
  cl_alloc := fun _ => ⟨[], false, noStats⟩
  longIrredCls := []
  longRedCls0 := []
  binTri := ⟨1, 0⟩
  cla_inc := .fin 1
  verbosity := 0

/-- Four variables and the one irredundant clause `(x0 or x1 or x2 or x3)`, stored with its
literals in increasing order and watched under its first two literals. -/
def exLongAscending : Solver where
  nVars := 4
  watches := [[.clause 0], [], [.clause 0], [], [], [], [], []]
  cl_alloc := fun _ => ⟨[⟨0⟩, ⟨2⟩, ⟨4⟩, ⟨6⟩], false, noStats⟩
  longIrredCls := [0]
  longRedCls0 := []
  binTri := ⟨0, 0⟩
  cla_inc := .fin 1
  verbosity := 0

/-- The same clause stored as `(x1 or x0 or x2 or x3)`: its first literal follows its
second one in the literal order. -/
def exLongDescending : Solver where
  nVars := 4
  watches := [[.clause 0], [], [.clause 0], [], [], [], [], []]
  cl_alloc := fun _ => ⟨[⟨2⟩, ⟨0⟩, ⟨4⟩, ⟨6⟩], false, noStats⟩
  longIrredCls := [0]
  longRedCls0 := []
  binTri := ⟨0, 0⟩
  cla_inc := .fin 1
  verbosity := 0

/-- Four variables and the one irredundant Horn clause
`(not x1 or not x0 or not x2 or not x3)`, watched under its first two literals. -/
def exHornDescending : Solver where
  nVars := 4
  watches := [[], [.clause 0], [], [.clause 0], [], [], [], []]
  cl_alloc := fun _ => ⟨[⟨3⟩, ⟨1⟩, ⟨5⟩, ⟨7⟩], false, noStats⟩
  longIrredCls := [0]
  longRedCls0 := []
  binTri := ⟨0, 0⟩
  cla_inc := .fin 1
  verbosity := 0

/-- The same Horn clause stored as `(not x0 or not x1 or not x2 or not x3)`. -/
def exHornAscending : Solver where
  nVars := 4
  watches := [[], [.clause 0], [], [.clause 0], [], [], [], []]
  cl_alloc := fun _ => ⟨[⟨1⟩, ⟨3⟩, ⟨5⟩, ⟨7⟩], false, noStats⟩
  longIrredCls := [0]
  longRedCls0 := []
  binTri := ⟨0, 0⟩
  cla_inc := .fin 1
  verbosity := 0

/-- A solver state without any clause. -/
def exEmpty : Solver where
  nVars := 0
  watches := []
  cl_alloc := fun _ => ⟨[], false, noStats⟩
  longIrredCls := []
  longRedCls0 := []
  binTri := ⟨0, 0⟩
  cla_inc := .fin 1
  verbosity := 0

/-- The record with its five normalized standard deviations set aside. -/
def noStd (f : SolveFeatures) : SolveFeatures :=
  { f with
    vcg_cls_std := .fin 0
    pnr_cls_std := .fin 0
    vcg_var_std := .fin 0
    pnr_var_std := .fin 0
    horn_std := .fin 0 }

/-- The calculator with the standard deviations of its record set aside. -/
def noStdC (c : SolveFeaturesCalc) : SolveFeaturesCalc := { c with feat := noStd c.feat }

/-! ## The stages over a recorded trace -/

/-- The accumulation pass, given the invocations `t` of its traversal. -/
def fill_vars_cls.onTrace (solver : Solver) (t : List Call) (c : SolveFeaturesCalc) :
    SolveFeaturesCalc :=
  let feat := { c.feat with numVars := solver.nVars }
  let feat := { feat with
    numClauses := solver.longIrredCls.length + solver.binTri.irredBins
      + solver.binTri.irredTris }
  replay fill_vars_cls.func_each_cl fill_vars_cls.func_each_lit
    { feat := feat, myVars := resize c.myVars solver.nVars } t

/-- The clause first-moment stage, given the invocations `t` of its traversal. -/
def calculate_clause_stats.onTrace (solver : Solver) (t : List Call) (c : SolveFeaturesCalc) :
    SolveFeaturesCalc :=
  { c with
    feat := calculate_clause_stats.finish solver
      (replay calculate_clause_stats.func_each_cl empty_func c.feat t) }

/-- The clause second-moment stage, given the invocations `t` of its traversal. -/
def calculate_extra_clause_stats.onTrace (sq : ℚ → ℚ) (t : List Call)
    (c : SolveFeaturesCalc) : SolveFeaturesCalc :=
  { c with
    feat := calculate_extra_clause_stats.finish sq
      (replay calculate_extra_clause_stats.each_clause empty_func c.feat t) }

/-- The stages of `extract` up to the first moments, given the invocations `t`. -/
def extract.firstMoments (solver : Solver) (t : List Call) (c : SolveFeaturesCalc) :
    SolveFeaturesCalc :=
  calculate_variable_stats
    (calculate_clause_stats.onTrace solver t
      (extract.active_vars (fill_vars_cls.onTrace solver t c)))

/-- All the stages of `extract`, given the invocations `t` of each traversal. -/
def extract.onTrace (sq : ℚ → ℚ) (solver : Solver) (t : List Call) (c : SolveFeaturesCalc) :
    SolveFeaturesCalc :=
  extract.distributions solver
    (calculate_extra_var_stats sq
      (calculate_extra_clause_stats.onTrace sq t (extract.firstMoments solver t c)))

/-- Two variables and no clause at all. -/
def exNoClause : Solver where
  nVars := 2
  watches := [[], [], [], []]
  cl_alloc := fun _ => ⟨[], false, noStats⟩
  longIrredCls := []
  longRedCls0 := []
  binTri := ⟨0, 0⟩
  cla_inc := .fin 1
  verbosity := 0

/-- The normalized standard deviation as the specification words it: `sqrt(S / N) / m` when
both the sum `S` of the squared deviations and the mean `m` exceed the epsilon, else 0. -/
def claimedStd (sq : ℚ → ℚ) (eps S m : Dbl) (N : Nat) : Dbl :=
  if Dbl.gt S eps && Dbl.gt m eps then Dbl.sqrt sq (S / Dbl.ofNat N) / m else .fin 0

/-- The variant in which the mean squared deviation `S / N`, not the sum `S`, is compared
with the epsilon. -/
def meanSquareStd (sq : ℚ → ℚ) (eps S m : Dbl) (N : Nat) : Dbl :=
  if Dbl.gt (S / Dbl.ofNat N) eps && Dbl.gt m eps then Dbl.sqrt sq (S / Dbl.ofNat N) / m
  else .fin 0

/-- A calculator after the accumulation pass and the count of the active variables, for a
formula of 500 irredundant Horn clauses without positive literal (200 binary, 300 ternary)
over 200 variables, of which 100 occur in 5 clauses and 100 occur in 8 clauses. -/
def exHornSpread : SolveFeaturesCalc :=
  { feat := { SolveFeatures.fresh (.fin (1 / 100000)) .pinf .ninf with
      numVars := 200, numClauses := 500 }
    myVars := List.replicate 100 ⟨0, 5, 5⟩ ++ List.replicate 100 ⟨0, 8, 8⟩ }

/-- The calculator after the first-moment stages of `extract` on `exBinary`. -/
def exBinaryMeans : SolveFeaturesCalc :=
  extract.firstMoments exBinary
    [.each_cl 2 2 0, .each_lit ⟨0⟩ 2 2 0, .each_lit ⟨2⟩ 2 2 0] freshCalc

/-- The calculator `exHornSpread` after the variable first-moment stage. -/
def exHornSpreadMeans : SolveFeaturesCalc := calculate_variable_stats exHornSpread

/-- Whether the entry `cl`, found under `lit`, reaches `assert(cl.lit2() < cl.lit3())` with
the assertion compiled in and false. -/
def assertFails (ndebug : Bool) (cl : Watched) (lit : Lit) : Bool :=
  match cl with
  | .tertiary lit2 lit3 red => !red && !decide (lit > lit2) && !ndebug && !decide (lit2 < lit3)
  | _ => false

/-- The watch entry of an irredundant ternary clause under one of its literals: the two
other literals `y` and `z`, stored in increasing order. -/
def triEntry (y z : Lit) : Watched :=
  .tertiary (sortPair y z).1 (sortPair y z).2 false

/-- Three redundant clauses of size 3, glue 2 and activity 6, with the activity increment 4. -/
def exUniform : Solver where
  nVars := 3
  watches := [[], [], [], [], [], []]
  cl_alloc := fun _ => ⟨[⟨0⟩, ⟨2⟩, ⟨4⟩], true, ⟨2, .fin 6⟩⟩
  longIrredCls := []
  longRedCls0 := [0, 1, 2]
  binTri := ⟨0, 0⟩
  cla_inc := .fin 4
  verbosity := 0

/-- The counts and the variable/clause ratio of a record. -/
def SolveFeatures.counts (f : SolveFeatures) : Nat × Nat × Dbl :=
  (f.numVars, f.numClauses, f.var_cl_ratio)

/-- Whether a variable is active: its occurrence count is greater than zero. -/
def VARIABLE.active (v : VARIABLE) : Bool := decide (v.size > 0)

/-- The invariant of an accumulator: neither the positive occurrences nor the occurrences in
Horn clauses exceed the occurrences. -/
def VARIABLE.bounded (v : VARIABLE) : Prop := v.numPos ≤ v.size ∧ v.horn ≤ v.size

/-- The sum of a per-variable ratio over the active variables. -/
def ratioSum (vs : List VARIABLE) (r : VARIABLE → ℚ) : ℚ :=
  ((vs.filter VARIABLE.active).map r).sum

/-- The mean as the specification words it: the sum divided by the population size when the
sum is positive, else 0. -/
def claimedMean (sum : ℚ) (n : Nat) : Dbl := if 0 < sum then .fin (sum / n) else .fin 0

/-- The calculator after the clause first-moment stage of `extract` on `exBinary`. -/
def exBinaryClauseStats : SolveFeaturesCalc :=
  calculate_clause_stats.onTrace exBinary
    [.each_cl 2 2 0, .each_lit ⟨0⟩ 2 2 0, .each_lit ⟨2⟩ 2 2 0]
    (extract.active_vars (fill_vars_cls.onTrace exBinary
      [.each_cl 2 2 0, .each_lit ⟨0⟩ 2 2 0, .each_lit ⟨2⟩ 2 2 0] freshCalc))

/-- Every literal of every watch entry is a literal of one of the `nVars` variables, so that
the accumulator it indexes exists. -/
def Solver.litsInRange (solver : Solver) : Prop :=
  ∀ i < solver.nVars * 2, ∀ w ∈ solver.watchesOf i,
    ∀ l ∈ entryLits solver w (Lit.toLit i), l.var < solver.nVars

/-- The occurrence count of the accumulator of index `j`, 0 when there is none. -/
def sizeAt : List VARIABLE → Nat → Nat
  | [], _ => 0
  | v :: _, 0 => v.size
  | _ :: vs, j + 1 => sizeAt vs j

/-- The sum, over the active variables, of the squared deviations of a per-variable ratio
from the value `m`. -/
def sqDevSum (vs : List VARIABLE) (r : VARIABLE → ℚ) (m : ℚ) : ℚ :=
  ((vs.filter VARIABLE.active).map (fun v => (m - r v) * (m - r v))).sum

/-- Three variables and the one irredundant binary clause `(x0 or x1)`: the variable `x2`
occurs in no clause. -/
def exBinaryThreeVars : Solver where
  nVars := 3
  watches := [[.binary ⟨2⟩ false], [], [.binary ⟨0⟩ false], [], [], []]
  cl_alloc := fun _ => ⟨[], false, noStats⟩
  longIrredCls := []
  longRedCls0 := []
  binTri := ⟨1, 0⟩
  cla_inc := .fin 1
  verbosity := 0

/-! # Properties -/

/-! ## A traversal is the replay of its trace -/

theorem replay_append {σ : Type} (f : Nat → Nat → Nat → σ → σ)
    (g : Lit → Nat → Nat → Nat → σ → σ) (st : σ) (t1 t2 : List Call) :
    replay f g st (t1 ++ t2) = replay f g (replay f g st t1) t2 := by
  simp [replay, List.foldl_append]

theorem replay_rec (t0 t : List Call) : replay Call.rec_cl Call.rec_lit t0 t = t0 ++ t := by
  induction t generalizing t0 with
  | nil => simp [replay]
  | cons c t ih =>
    have h : replay Call.rec_cl Call.rec_lit t0 (c :: t)
        = replay Call.rec_cl Call.rec_lit (t0 ++ [c]) t := by
      cases c <;> simp [replay, Call.apply, Call.rec_cl, Call.rec_lit]
    rw [h, ih]; simp

theorem foldl_lit_replay {σ : Type} (f : Nat → Nat → Nat → σ → σ)
    (g : Lit → Nat → Nat → Nat → σ → σ) (a b c : Nat) (lits : List Lit) (st : σ) :
    lits.foldl (fun st l => g l a b c st) st
      = replay f g st (lits.map (fun l => .each_lit l a b c)) := by
  induction lits generalizing st with
  | nil => simp [replay]
  | cons l ls ih => simpa [replay, Call.apply] using ih (g l a b c st)

theorem for_one_clause_replay {σ : Type} (ndebug : Bool) (solver : Solver) (cl : Watched)
    (lit : Lit) (f : Nat → Nat → Nat → σ → σ) (g : Lit → Nat → Nat → Nat → σ → σ) (st : σ) :
    for_one_clause ndebug solver cl lit f g st
      = (oneTrace ndebug solver cl lit).map (replay f g st) := by
  cases cl with
  | binary lit2 red =>
    simp only [oneTrace, for_one_clause]
    split_ifs <;> simp [Except.map, replay, Call.apply, Call.rec_cl, Call.rec_lit]
  | tertiary lit2 lit3 red =>
    simp only [oneTrace, for_one_clause]
    split_ifs <;> simp [Except.map, replay, Call.apply, Call.rec_cl, Call.rec_lit]
  | clause offset =>
    simp only [oneTrace, for_one_clause]
    split_ifs
    · simp [Except.map, replay]
    · simp [Except.map, replay]
    · rw [foldl_lit_replay f g, foldl_lit_replay Call.rec_cl Call.rec_lit, replay_rec]
      simp [Except.map, replay, Call.apply, Call.rec_cl]
  | idx i => simp [oneTrace, for_one_clause, Except.map]

theorem foldlM_replay {σ α : Type} (f : Nat → Nat → Nat → σ → σ)
    (g : Lit → Nat → Nat → Nat → σ → σ) (step : σ → α → Except Fault σ)
    (stepT : List Call → α → Except Fault (List Call)) (tr : α → Except Fault (List Call))
    (h : ∀ st a, step st a = (tr a).map (replay f g st))
    (hT : ∀ t a, stepT t a = (tr a).map (fun u => t ++ u))
    (l : List α) (t0 : List Call) (st0 : σ) :
    l.foldlM step (replay f g st0 t0) = (l.foldlM stepT t0).map (replay f g st0) := by
  induction l generalizing t0 with
  | nil => simp [Except.map, pure, Except.pure]
  | cons a l ih =>
    simp only [List.foldlM_cons, h, hT]
    cases hta : tr a with
    | error e => simp [Except.map, bind, Except.bind]
    | ok ta =>
      simp only [Except.map, bind, Except.bind]
      rw [← replay_append]
      exact ih (t0 ++ ta)

theorem for_one_clause_rec (ndebug : Bool) (solver : Solver) (cl : Watched) (lit : Lit)
    (t : List Call) :
    for_one_clause ndebug solver cl lit Call.rec_cl Call.rec_lit t
      = (oneTrace ndebug solver cl lit).map (fun u => t ++ u) := by
  rw [for_one_clause_replay]
  congr 1
  funext u
  exact replay_rec t u

theorem lit_replay {σ : Type} (ndebug : Bool) (solver : Solver)
    (f : Nat → Nat → Nat → σ → σ) (g : Lit → Nat → Nat → Nat → σ → σ) (i : Nat) (st : σ) :
    (solver.watchesOf i).foldlM (fun st w =>
        for_one_clause ndebug solver w (Lit.toLit i) f g st) st
      = (litTrace ndebug solver i).map (replay f g st) := by
  have h := foldlM_replay f g
    (fun st w => for_one_clause ndebug solver w (Lit.toLit i) f g st)
    (fun t w => for_one_clause ndebug solver w (Lit.toLit i) Call.rec_cl Call.rec_lit t)
    (fun w => oneTrace ndebug solver w (Lit.toLit i))
    (fun st a => for_one_clause_replay ndebug solver a (Lit.toLit i) f g st)
    (fun t a => for_one_clause_rec ndebug solver a (Lit.toLit i) t)
    (solver.watchesOf i) [] st
  simpa [replay, litTrace] using h

/-- A traversal with any callbacks is the replay of the recorded trace. -/
theorem for_all_clauses_replay {σ : Type} (ndebug : Bool) (solver : Solver)
    (f : Nat → Nat → Nat → σ → σ) (g : Lit → Nat → Nat → Nat → σ → σ) (st : σ) :
    for_all_clauses ndebug solver f g st = (allTrace ndebug solver).map (replay f g st) := by
  have h := foldlM_replay f g
    (fun st i => (solver.watchesOf i).foldlM (fun st w =>
        for_one_clause ndebug solver w (Lit.toLit i) f g st) st)
    (fun t i => (solver.watchesOf i).foldlM (fun t w =>
        for_one_clause ndebug solver w (Lit.toLit i) Call.rec_cl Call.rec_lit t) t)
    (fun i => litTrace ndebug solver i)
    (fun st i => lit_replay ndebug solver f g i st)
    (fun t i => by
      have := lit_replay ndebug solver Call.rec_cl Call.rec_lit i t
      show List.foldlM _ t (solver.watchesOf i) = _
      rw [this]; congr 1; funext u; exact replay_rec t u)
    (List.range (solver.nVars * 2)) [] st
  simpa [replay, allTrace, for_all_clauses] using h

theorem for_all_clauses_ok {σ : Type} (ndebug : Bool) (solver : Solver)
    (f : Nat → Nat → Nat → σ → σ) (g : Lit → Nat → Nat → Nat → σ → σ) (st : σ)
    (t : List Call) (h : allTrace ndebug solver = .ok t) :
    for_all_clauses ndebug solver f g st = .ok (replay f g st t) := by
  rw [for_all_clauses_replay, h]; rfl

/-! ## C1: the iterator and the arbitrary-size clauses -/

/-- C1 (fails on the code): on a well-formed watch index holding one irredundant
arbitrary-size clause, `numClauses` is 1, yet a traversal invokes the per-clause callback
zero times when the clause is stored with `clause[0] < clause[1]` and twice otherwise: the
test of `for_one_clause` does not look at the current literal, so both watch entries of the
clause are skipped, or both are counted. -/
theorem C1_long_clause_visited_zero_or_two_times (ndebug : Bool) :
    wellFormed exLongAscending = true
      ∧ (fill_vars_cls ndebug exLongAscending freshCalc).map (fun c => c.feat.numClauses)
          = .ok 1
      ∧ (allTrace ndebug exLongAscending).map clCalls = .ok 0
      ∧ wellFormed exLongDescending = true
      ∧ (fill_vars_cls ndebug exLongDescending freshCalc).map (fun c => c.feat.numClauses)
          = .ok 1
      ∧ (allTrace ndebug exLongDescending).map clCalls = .ok 2 := by
  cases ndebug <;> decide

/-! ## C2: redundant entries -/

theorem foldlM_filter_skip {σ α : Type} (step : σ → α → Except Fault σ) (p : α → Bool)
    (h : ∀ st a, p a = false → step st a = .ok st) (l : List α) (st : σ) :
    (l.filter p).foldlM step st = l.foldlM step st := by
  induction l generalizing st with
  | nil => rfl
  | cons a l ih =>
    cases hp : p a with
    | true => simp only [List.filter_cons, hp, List.foldlM_cons, if_true, ih]
    | false =>
      simp only [List.filter_cons, hp, List.foldlM_cons, h st a hp]
      simpa [bind, Except.bind] using ih st

theorem for_one_clause_red {σ : Type} (ndebug : Bool) (solver : Solver) (cl : Watched)
    (lit : Lit) (f : Nat → Nat → Nat → σ → σ) (g : Lit → Nat → Nat → Nat → σ → σ) (st : σ)
    (h : cl.isRed solver = true) : for_one_clause ndebug solver cl lit f g st = .ok st := by
  cases cl <;> simp_all [Watched.isRed, for_one_clause]

theorem watchesOf_dropRed (solver : Solver) (i : Nat) :
    solver.dropRed.watchesOf i = (solver.watchesOf i).filter (fun w => !w.isRed solver) := by
  simp only [Solver.watchesOf, Solver.dropRed, List.getD_eq_getElem?_getD, List.getElem?_map]
  cases solver.watches[i]? <;> simp

theorem for_one_clause_dropRed {σ : Type} (ndebug : Bool) (solver : Solver) (cl : Watched)
    (lit : Lit) (f : Nat → Nat → Nat → σ → σ) (g : Lit → Nat → Nat → Nat → σ → σ) (st : σ) :
    for_one_clause ndebug solver.dropRed cl lit f g st
      = for_one_clause ndebug solver cl lit f g st := rfl

/-- C2: a watch entry marked redundant (binary or ternary entry with the flag set,
arbitrary-size entry whose resolved clause is redundant) makes `for_one_clause` return
without invoking any callback, whatever the current literal, the callbacks and the state;
and the invocations of a traversal by `for_all_clauses` are those of the traversal of the
watch index without its redundant entries. -/
theorem C2_redundant_entries_are_skipped (ndebug : Bool) (solver : Solver) :
    (∀ (cl : Watched) (lit : Lit), cl.isRed solver = true →
        oneTrace ndebug solver cl lit = .ok []
        ∧ ∀ (σ : Type) (f : Nat → Nat → Nat → σ → σ) (g : Lit → Nat → Nat → Nat → σ → σ)
            (st : σ), for_one_clause ndebug solver cl lit f g st = .ok st)
      ∧ allTrace ndebug solver = allTrace ndebug solver.dropRed := by
  refine ⟨fun cl lit h => ⟨for_one_clause_red ndebug solver cl lit _ _ _ h,
    fun σ f g st => for_one_clause_red ndebug solver cl lit f g st h⟩, ?_⟩
  simp only [allTrace, for_all_clauses]
  have hn : solver.dropRed.nVars = solver.nVars := rfl
  rw [hn]
  congr 1
  funext t i
  simp only [watchesOf_dropRed]
  rw [foldlM_filter_skip]
  · rfl
  · intro st a ha
    exact for_one_clause_red ndebug solver a _ _ _ st (by simpa using ha)

/-! ## C3: the arguments of the callbacks -/

theorem foldl_uadd_count (lits : List Lit) (p : Nat) (h : p + lits.length < 2 ^ 32) :
    lits.foldl (fun p cl_lit => uadd p (!cl_lit.sign).toNat) p = p + posCount lits := by
  induction lits generalizing p with
  | nil => simp [posCount]
  | cons l ls ih =>
    simp only [List.foldl_cons, List.length_cons] at h ⊢
    have hb : (!l.sign).toNat ≤ 1 := by cases l.sign <;> simp
    have hu : uadd p (!l.sign).toNat = p + (!l.sign).toNat := by
      unfold uadd; apply Nat.mod_eq_of_lt; omega
    rw [hu, ih _ (by omega)]
    cases hs : l.sign
    · simp [posCount, List.countP_cons, hs]; omega
    · simp [posCount, List.countP_cons, hs]

theorem posCount_le (lits : List Lit) : posCount lits ≤ lits.length := by
  unfold posCount; exact List.countP_le_length _

theorem usub_eq (a b : Nat) (hb : b ≤ a) (ha : a < 2 ^ 32) : usub a b = a - b := by
  unfold usub
  have h1 : b % 2 ^ 32 = b := Nat.mod_eq_of_lt (by omega)
  rw [h1]
  have h2 : a + 2 ^ 32 - b = (a - b) + 2 ^ 32 := by omega
  rw [h2, Nat.add_mod_right]
  exact Nat.mod_eq_of_lt (by omega)

theorem oneTrace_cases (ndebug : Bool) (solver : Solver) (cl : Watched) (lit : Lit)
    (hsize : (entryLits solver cl lit).length < 2 ^ 32) :
    oneTrace ndebug solver cl lit = .ok []
      ∨ (∃ e, oneTrace ndebug solver cl lit = .error e)
      ∨ oneTrace ndebug solver cl lit
          = .ok (callsOf (entryLits solver cl lit).length (posCount (entryLits solver cl lit))
              ((entryLits solver cl lit).length - posCount (entryLits solver cl lit))
              (entryLits solver cl lit)) := by
  cases cl with
  | binary lit2 red =>
    simp only [oneTrace, for_one_clause]
    split_ifs
    · exact Or.inl rfl
    · exact Or.inl rfl
    · refine Or.inr (Or.inr ?_)
      cases h1 : lit.sign <;> cases h2 : lit2.sign <;>
        simp [entryLits, posCount, callsOf, Call.rec_cl, Call.rec_lit, uadd, usub, h1, h2]
  | tertiary lit2 lit3 red =>
    simp only [oneTrace, for_one_clause]
    split_ifs
    · exact Or.inl rfl
    · exact Or.inl rfl
    · exact Or.inr (Or.inl ⟨_, rfl⟩)
    · refine Or.inr (Or.inr ?_)
      cases h1 : lit.sign <;> cases h2 : lit2.sign <;> cases h3 : lit3.sign <;>
        simp [entryLits, posCount, callsOf, Call.rec_cl, Call.rec_lit, uadd, usub, h1, h2, h3]
  | clause offset =>
    simp only [oneTrace, for_one_clause]
    split_ifs
    · exact Or.inl rfl
    · exact Or.inl rfl
    · refine Or.inr (Or.inr ?_)
      simp only [entryLits] at hsize ⊢
      rw [foldl_uadd_count _ _ (by omega), foldl_lit_replay Call.rec_cl Call.rec_lit,
        replay_rec, Nat.zero_add, Clause.size,
        usub_eq _ _ (posCount_le _) hsize]
      simp [Call.rec_cl, callsOf]
  | idx i => exact Or.inr (Or.inl ⟨_, rfl⟩)

/-- C3: when `for_one_clause` returns having invoked a callback, the per-clause callback was
invoked once with `size` the number of literals of the clause, `pos_vars` the number of its
non-negated literals and `neg_vars = size - pos_vars`, followed by one invocation of the
per-literal callback for every literal occurrence of the clause, in order (the current literal
first for binary and ternary entries), each with the same triple; `pos_vars + neg_vars = size`
and `pos_vars <= size`. The same holds of any callbacks: their effect is the replay of these
invocations. -/
theorem C3_callback_arguments (ndebug : Bool) (solver : Solver) (cl : Watched) (lit : Lit)
    (t : List Call) (hret : oneTrace ndebug solver cl lit = .ok t) (hcall : t ≠ [])
    (hsize : (entryLits solver cl lit).length < 2 ^ 32) :
    t = callsOf (entryLits solver cl lit).length (posCount (entryLits solver cl lit))
          ((entryLits solver cl lit).length - posCount (entryLits solver cl lit))
          (entryLits solver cl lit)
      ∧ posCount (entryLits solver cl lit)
          + ((entryLits solver cl lit).length - posCount (entryLits solver cl lit))
          = (entryLits solver cl lit).length
      ∧ posCount (entryLits solver cl lit) ≤ (entryLits solver cl lit).length
      ∧ clCalls t = 1
      ∧ t.length = 1 + (entryLits solver cl lit).length
      ∧ ∀ (σ : Type) (f : Nat → Nat → Nat → σ → σ) (g : Lit → Nat → Nat → Nat → σ → σ)
          (st : σ), for_one_clause ndebug solver cl lit f g st = .ok (replay f g st t) := by
  have hle := posCount_le (entryLits solver cl lit)
  have ht : t = callsOf (entryLits solver cl lit).length (posCount (entryLits solver cl lit))
      ((entryLits solver cl lit).length - posCount (entryLits solver cl lit))
      (entryLits solver cl lit) := by
    rcases oneTrace_cases ndebug solver cl lit hsize with h | ⟨e, h⟩ | h
    · rw [h] at hret; cases hret; exact absurd rfl hcall
    · rw [h] at hret; cases hret
    · rw [h] at hret; cases hret; rfl
  refine ⟨ht, by omega, hle, ?_, ?_, ?_⟩
  · rw [ht]
    simp [clCalls, callsOf, Call.isCl, List.countP_cons, List.countP_map]
  · rw [ht]; simp [callsOf]; omega
  · intro σ f g st
    rw [for_one_clause_replay, hret]; rfl

/-- Witness of C3: the binary entry of `(x0 or x1)` found under `x0`. -/
theorem C3_callback_arguments_witness :
    oneTrace false exBinary (.binary ⟨2⟩ false) ⟨0⟩
        = .ok [.each_cl 2 2 0, .each_lit ⟨0⟩ 2 2 0, .each_lit ⟨2⟩ 2 2 0]
      ∧ [Call.each_cl 2 2 0, .each_lit ⟨0⟩ 2 2 0, .each_lit ⟨2⟩ 2 2 0]
          = callsOf 2 2 (2 - 2) [⟨0⟩, ⟨2⟩] :=
  ⟨by decide,
    (C3_callback_arguments false exBinary (.binary ⟨2⟩ false) ⟨0⟩
      [.each_cl 2 2 0, .each_lit ⟨0⟩ 2 2 0, .each_lit ⟨2⟩ 2 2 0] (by decide) (by decide)
      (by decide)).1⟩

/-! ## C4: the positive/negative ratio -/

@[simp] theorem Dbl.add_fin (a b : ℚ) : Dbl.fin a + Dbl.fin b = Dbl.fin (a + b) := rfl

@[simp] theorem Dbl.sub_fin (a b : ℚ) : Dbl.fin a - Dbl.fin b = Dbl.fin (a - b) := by
  show Dbl.add (Dbl.fin a) (Dbl.neg (Dbl.fin b)) = _
  simp [Dbl.add, Dbl.neg, sub_eq_add_neg]

@[simp] theorem Dbl.mul_fin (a b : ℚ) : Dbl.fin a * Dbl.fin b = Dbl.fin (a * b) := rfl

theorem Dbl.div_fin (a b : ℚ) (hb : b ≠ 0) : Dbl.fin a / Dbl.fin b = Dbl.fin (a / b) := by
  show Dbl.div (Dbl.fin a) (Dbl.fin b) = _
  simp [Dbl.div, hb]

theorem pnr_fin (pos size : Nat) (hsize : 0 < size) :
    pnr (Dbl.ofNat pos) (Dbl.ofNat size) = Dbl.fin ((pos : ℚ) / size) := by
  have h0 : (size : ℚ) ≠ 0 := by exact_mod_cast hsize.ne'
  have h2 : (2 : ℚ) * size ≠ 0 := by positivity
  simp only [pnr, Dbl.ofNat, Dbl.mul_fin, Dbl.sub_fin, Dbl.div_fin _ _ h2, Dbl.add_fin]
  congr 1
  field_simp
  ring

/-- C4: for a clause of `size > 0` literals of which `pos <= size` are positive, the ratio
`0.5 + (2 * pos - size) / (2 * size)` computed by the code is the finite value `pos / size`
in exact arithmetic: 1 for an all-positive clause, 0 for an all-negative one, 1/2 for a
balanced one, and always within `[0, 1]`. -/
theorem C4_pnr_is_pos_over_size (pos size : Nat) (hsize : 0 < size) (hpos : pos ≤ size) :
    pnr (Dbl.ofNat pos) (Dbl.ofNat size) = Dbl.fin ((pos : ℚ) / size)
      ∧ (pos = size → pnr (Dbl.ofNat pos) (Dbl.ofNat size) = Dbl.fin 1)
      ∧ (pos = 0 → pnr (Dbl.ofNat pos) (Dbl.ofNat size) = Dbl.fin 0)
      ∧ (2 * pos = size → pnr (Dbl.ofNat pos) (Dbl.ofNat size) = Dbl.fin (1 / 2))
      ∧ (0 : ℚ) ≤ (pos : ℚ) / size ∧ (pos : ℚ) / size ≤ 1 := by
  have h0 : (0 : ℚ) < size := by exact_mod_cast hsize
  have hp : (pos : ℚ) ≤ size := by exact_mod_cast hpos
  refine ⟨pnr_fin pos size hsize, ?_, ?_, ?_, by positivity, (div_le_one h0).2 hp⟩
  · intro h; rw [pnr_fin pos size hsize, h, div_self h0.ne']
  · intro h; rw [pnr_fin pos size hsize, h]; simp
  · intro h
    rw [pnr_fin pos size hsize, ← h]
    congr 1
    have : (pos : ℚ) ≠ 0 := by
      intro hz; have : pos = 0 := by exact_mod_cast hz
      omega
    push_cast
    field_simp
    ring

/-- Witness of C4: the clause `(x1 or x2)` has ratio 1, `(not x1 or not x2)` has ratio 0. -/
theorem C4_pnr_is_pos_over_size_witness :
    pnr (Dbl.ofNat 2) (Dbl.ofNat 2) = Dbl.fin 1 ∧ pnr (Dbl.ofNat 0) (Dbl.ofNat 2) = Dbl.fin 0 :=
  ⟨(C4_pnr_is_pos_over_size 2 2 (by decide) (by decide)).2.1 rfl,
    (C4_pnr_is_pos_over_size 0 2 (by decide) (by decide)).2.2.1 rfl⟩

/-! ## `extract` over the trace of its traversals -/

theorem fill_vars_cls_ok (ndebug : Bool) (solver : Solver) (t : List Call)
    (h : allTrace ndebug solver = .ok t) (c : SolveFeaturesCalc) :
    fill_vars_cls ndebug solver c = .ok (fill_vars_cls.onTrace solver t c) := by
  unfold fill_vars_cls fill_vars_cls.onTrace
  exact for_all_clauses_ok _ _ _ _ _ _ h

theorem calculate_clause_stats_ok (ndebug : Bool) (solver : Solver) (t : List Call)
    (h : allTrace ndebug solver = .ok t) (c : SolveFeaturesCalc) :
    calculate_clause_stats ndebug solver c
      = .ok (calculate_clause_stats.onTrace solver t c) := by
  unfold calculate_clause_stats calculate_clause_stats.onTrace
  rw [for_all_clauses_ok _ _ _ _ _ _ h]; rfl

theorem calculate_extra_clause_stats_ok (sq : ℚ → ℚ) (ndebug : Bool) (solver : Solver)
    (t : List Call) (h : allTrace ndebug solver = .ok t) (c : SolveFeaturesCalc) :
    calculate_extra_clause_stats sq ndebug solver c
      = .ok (calculate_extra_clause_stats.onTrace sq t c) := by
  unfold calculate_extra_clause_stats calculate_extra_clause_stats.onTrace
  rw [for_all_clauses_ok _ _ _ _ _ _ h]; rfl

theorem extract_ok (sq : ℚ → ℚ) (ndebug : Bool) (solver : Solver) (t : List Call)
    (h : allTrace ndebug solver = .ok t) (start_time end_time : Dbl) (c : SolveFeaturesCalc) :
    extract sq ndebug solver start_time end_time c
      = .ok { result := (extract.onTrace sq solver t c).feat
              after := extract.onTrace sq solver t c
              printed :=
                if solver.verbosity ≠ 0 then some (end_time - start_time) else none } := by
  unfold extract
  rw [fill_vars_cls_ok ndebug solver t h]
  simp only [bind, Except.bind]
  rw [calculate_clause_stats_ok ndebug solver t h]
  simp only [bind, Except.bind]
  rw [calculate_extra_clause_stats_ok sq ndebug solver t h]
  rfl

theorem extract_error (sq : ℚ → ℚ) (ndebug : Bool) (solver : Solver) (e : Fault)
    (h : allTrace ndebug solver = .error e) (start_time end_time : Dbl)
    (c : SolveFeaturesCalc) :
    extract sq ndebug solver start_time end_time c = .error e := by
  unfold extract fill_vars_cls
  rw [for_all_clauses_replay, h]; rfl

/-! ## The square root only reaches the standard deviations -/

theorem replay_norm {σ : Type} (N : σ → σ) (hN : ∀ x, N (N x) = N x)
    (f : Nat → Nat → Nat → σ → σ) (g : Lit → Nat → Nat → Nat → σ → σ)
    (hf : ∀ a b c x, N (f a b c x) = N (f a b c (N x)))
    (hg : ∀ l a b c x, N (g l a b c x) = N (g l a b c (N x)))
    (t : List Call) (x : σ) : N (replay f g x t) = N (replay f g (N x) t) := by
  induction t generalizing x with
  | nil => exact (hN x).symm
  | cons c t ih =>
    cases c with
    | each_cl a b c =>
      simp only [replay, List.foldl_cons, Call.apply] at ih ⊢
      rw [ih (f a b c x), hf, ← ih]
    | each_lit l a b c =>
      simp only [replay, List.foldl_cons, Call.apply] at ih ⊢
      rw [ih (g l a b c x), hg, ← ih]

theorem replay_frame {σ α : Type} (N : σ → α) (f : Nat → Nat → Nat → σ → σ)
    (g : Lit → Nat → Nat → Nat → σ → σ)
    (hf : ∀ a b c x, N (f a b c x) = N x) (hg : ∀ l a b c x, N (g l a b c x) = N x)
    (t : List Call) (x : σ) : N (replay f g x t) = N x := by
  induction t generalizing x with
  | nil => rfl
  | cons c t ih =>
    cases c with
    | each_cl a b c =>
      simp only [replay, List.foldl_cons, Call.apply] at ih ⊢
      rw [ih (f a b c x), hf]
    | each_lit l a b c =>
      simp only [replay, List.foldl_cons, Call.apply] at ih ⊢
      rw [ih (g l a b c x), hg]

theorem fill_onTrace_noStd (solver : Solver) (t : List Call) (c : SolveFeaturesCalc) :
    noStdC (fill_vars_cls.onTrace solver t c)
      = noStdC (fill_vars_cls.onTrace solver t (noStdC c)) := by
  unfold fill_vars_cls.onTrace
  rw [replay_norm noStdC (fun _ => rfl)]
  · rfl
  · intro a b c x
    unfold fill_vars_cls.func_each_cl
    split_ifs <;> rfl
  · intro l a b c x
    rfl

theorem active_vars_noStd (c : SolveFeaturesCalc) :
    noStdC (extract.active_vars c) = noStdC (extract.active_vars (noStdC c)) := by
  unfold extract.active_vars
  dsimp only [noStdC]
  split_ifs <;> rfl

theorem clause_onTrace_noStd (solver : Solver) (t : List Call) (c : SolveFeaturesCalc) :
    noStdC (calculate_clause_stats.onTrace solver t c)
      = noStdC (calculate_clause_stats.onTrace solver t (noStdC c)) := by
  have h := replay_norm noStd (fun _ => rfl) calculate_clause_stats.func_each_cl empty_func
    (by
      intro a b c x
      unfold calculate_clause_stats.func_each_cl
      split_ifs <;> rfl)
    (fun _ _ _ _ _ => rfl) t c.feat
  have h2 : ∀ x y, noStd x = noStd y →
      noStd (calculate_clause_stats.finish solver x)
        = noStd (calculate_clause_stats.finish solver y) := by
    intro x y hxy
    have e1 : noStd (calculate_clause_stats.finish solver x)
        = noStd (calculate_clause_stats.finish solver (noStd x)) := rfl
    have e2 : noStd (calculate_clause_stats.finish solver y)
        = noStd (calculate_clause_stats.finish solver (noStd y)) := rfl
    rw [e1, e2, hxy]
  unfold calculate_clause_stats.onTrace noStdC
  dsimp only
  congr 1
  exact h2 _ _ h

theorem var_stats_body_noStd (f : SolveFeatures) (v : VARIABLE) :
    noStd (calculate_variable_stats.body f v)
      = noStd (calculate_variable_stats.body (noStd f) v) := by
  unfold calculate_variable_stats.body
  split_ifs <;> rfl

theorem var_stats_fold_noStd (vs : List VARIABLE) (f : SolveFeatures) :
    noStd (vs.foldl calculate_variable_stats.body f)
      = noStd (vs.foldl calculate_variable_stats.body (noStd f)) := by
  induction vs generalizing f with
  | nil => rfl
  | cons v vs ih =>
    simp only [List.foldl_cons]
    rw [ih (calculate_variable_stats.body f v), var_stats_body_noStd, ← ih]

theorem var_stats_finish_noStd (f : SolveFeatures) :
    noStd (calculate_variable_stats.finish f)
      = noStd (calculate_variable_stats.finish (noStd f)) := by
  unfold calculate_variable_stats.finish
  dsimp only [noStd]
  split_ifs <;> rfl

theorem var_stats_noStd (c : SolveFeaturesCalc) :
    noStdC (calculate_variable_stats c) = noStdC (calculate_variable_stats (noStdC c)) := by
  unfold calculate_variable_stats
  have hn : (noStdC c).feat.numVars = c.feat.numVars := rfl
  by_cases h0 : c.feat.numVars = 0
  · simp only [hn, h0, if_true]; rfl
  · simp only [hn, h0, if_false]
    have hf := var_stats_fold_noStd c.myVars c.feat
    unfold noStdC
    dsimp only
    congr 1
    rw [var_stats_finish_noStd, hf, ← var_stats_finish_noStd]

theorem firstMoments_noStd (solver : Solver) (t : List Call) (c : SolveFeaturesCalc) :
    noStdC (extract.firstMoments solver t c)
      = noStdC (extract.firstMoments solver t (noStdC c)) := by
  unfold extract.firstMoments
  rw [var_stats_noStd, clause_onTrace_noStd, active_vars_noStd, fill_onTrace_noStd,
    ← active_vars_noStd, ← clause_onTrace_noStd, ← var_stats_noStd]

theorem extra_clause_onTrace_noStd (sq : ℚ → ℚ) (t : List Call) (c : SolveFeaturesCalc) :
    noStdC (calculate_extra_clause_stats.onTrace sq t c) = noStdC c := by
  have h := replay_frame noStd calculate_extra_clause_stats.each_clause empty_func
    (by
      intro a b c x
      unfold calculate_extra_clause_stats.each_clause
      split_ifs <;> rfl)
    (fun _ _ _ _ _ => rfl) t c.feat
  have h2 : ∀ x, noStd (calculate_extra_clause_stats.finish sq x) = noStd x := by
    intro x
    unfold calculate_extra_clause_stats.finish
    dsimp only
    split_ifs <;> rfl
  unfold calculate_extra_clause_stats.onTrace noStdC
  dsimp only
  congr 1
  rw [h2, h]

theorem extra_var_fold_noStd (vs : List VARIABLE) (f : SolveFeatures) :
    noStd (vs.foldl calculate_extra_var_stats.body f) = noStd f := by
  induction vs generalizing f with
  | nil => rfl
  | cons v vs ih =>
    simp only [List.foldl_cons]
    rw [ih]
    unfold calculate_extra_var_stats.body
    split_ifs <;> rfl

theorem extra_var_noStd (sq : ℚ → ℚ) (c : SolveFeaturesCalc) :
    noStdC (calculate_extra_var_stats sq c) = noStdC c := by
  unfold calculate_extra_var_stats
  split_ifs
  · rfl
  · have h2 : ∀ x, noStd (calculate_extra_var_stats.finish sq x) = noStd x := by
      intro x
      unfold calculate_extra_var_stats.finish
      dsimp only
      split_ifs <;> rfl
    unfold noStdC
    dsimp only
    congr 1
    rw [h2, extra_var_fold_noStd]

theorem distributions_noStd (solver : Solver) (c : SolveFeaturesCalc) :
    noStdC (extract.distributions solver c)
      = noStdC (extract.distributions solver (noStdC c)) := rfl

/-- The record that `extract` leaves, its standard deviations set aside, does not depend on
the square root, nor on the standard deviations the calculator started with. -/
theorem extract_onTrace_noStd (sq sq2 : ℚ → ℚ) (solver : Solver) (t : List Call)
    (c c2 : SolveFeaturesCalc) (h : noStdC c = noStdC c2) :
    noStdC (extract.onTrace sq solver t c) = noStdC (extract.onTrace sq2 solver t c2) := by
  unfold extract.onTrace
  rw [distributions_noStd, extra_var_noStd, extra_clause_onTrace_noStd, firstMoments_noStd, h,
    ← firstMoments_noStd, distributions_noStd solver (calculate_extra_var_stats sq2 _),
    extra_var_noStd, extra_clause_onTrace_noStd]

theorem extract_noStd (sq sq2 : ℚ → ℚ) (ndebug : Bool) (solver : Solver)
    (t0 t1 u0 u1 : Dbl) (c c2 : SolveFeaturesCalc) (h : noStdC c = noStdC c2) :
    (extract sq ndebug solver t0 t1 c).map (fun e => noStdC e.after)
      = (extract sq2 ndebug solver u0 u1 c2).map (fun e => noStdC e.after) := by
  cases hT : allTrace ndebug solver with
  | error e => rw [extract_error sq _ _ e hT, extract_error sq2 _ _ e hT]
  | ok t =>
    rw [extract_ok sq _ _ t hT, extract_ok sq2 _ _ t hT]
    simp only [Except.map]
    rw [extract_onTrace_noStd sq sq2 solver t c c2 h]

theorem extract_result_after (sq : ℚ → ℚ) (ndebug : Bool) (solver : Solver)
    (t0 t1 : Dbl) (c : SolveFeaturesCalc) (e : Extracted)
    (h : extract sq ndebug solver t0 t1 c = .ok e) : e.result = e.after.feat := by
  cases hT : allTrace ndebug solver with
  | error x => rw [extract_error sq _ _ x hT] at h; cases h
  | ok t => rw [extract_ok sq _ _ t hT] at h; cases h; rfl

/-- A field of the returned record that is not one of the standard deviations can be read off
a run with any square root and any clock. -/
theorem extract_field {α : Type} (p : SolveFeatures → α) (hp : ∀ f, p f = p (noStd f))
    (sq sq2 : ℚ → ℚ) (ndebug : Bool) (solver : Solver) (t0 t1 u0 u1 : Dbl)
    (c : SolveFeaturesCalc) :
    (extract sq ndebug solver t0 t1 c).map (fun e => p e.result)
      = (extract sq2 ndebug solver u0 u1 c).map (fun e => p e.result) := by
  cases hT : allTrace ndebug solver with
  | error e => rw [extract_error sq _ _ e hT, extract_error sq2 _ _ e hT]
  | ok t =>
    rw [extract_ok sq _ _ t hT, extract_ok sq2 _ _ t hT]
    simp only [Except.map]
    rw [hp, hp (extract.onTrace sq2 solver t c).feat]
    have := extract_onTrace_noStd sq sq2 solver t c c rfl
    have h2 : noStd (extract.onTrace sq solver t c).feat
        = noStd (extract.onTrace sq2 solver t c).feat := congrArg SolveFeaturesCalc.feat this
    rw [h2]

/-! ## C5: the Horn fraction -/

/-- C5 (fails on the code): on a well-formed state whose only irredundant clause is the Horn
clause `(not x1 or not x0 or not x2 or not x3)`, `extract` on a fresh calculator returns the
Horn fraction 2 when the clause is stored with `clause[0] > clause[1]` (it is counted from
both of its watch entries) and 0 when it is stored with `clause[0] < clause[1]` (it is never
counted), where the claim says 1. -/
theorem C5_horn_fraction_of_one_long_horn_clause (sq : ℚ → ℚ) (ndebug : Bool)
    (t0 t1 : Dbl) :
    wellFormed exHornDescending = true
      ∧ exHornDescending.longIrredCls.all
          (fun o => decide (posCount (exHornDescending.cl_alloc o).lits ≤ 1)) = true
      ∧ (extract sq ndebug exHornDescending t0 t1 freshCalc).map (fun e => e.result.horn)
          = .ok (.fin 2)
      ∧ wellFormed exHornAscending = true
      ∧ exHornAscending.longIrredCls.all
          (fun o => decide (posCount (exHornAscending.cl_alloc o).lits ≤ 1)) = true
      ∧ (extract sq ndebug exHornAscending t0 t1 freshCalc).map (fun e => e.result.horn)
          = .ok (.fin 0) := by
  refine ⟨by decide, by decide, ?_, by decide, by decide, ?_⟩
  · rw [extract_field (fun f => f.horn) (fun _ => rfl) sq (fun _ => 0) ndebug _ t0 t1
      (.fin 0) (.fin 0)]
    cases ndebug <;> decide!
  · rw [extract_field (fun f => f.horn) (fun _ => rfl) sq (fun _ => 0) ndebug _ t0 t1
      (.fin 0) (.fin 0)]
    cases ndebug <;> decide!

/-! ## C7: no irredundant clause -/

/-- C7 (fails on the code): on a state without any clause (`numClauses = 0`, no callback
invoked), `extract` on a fresh calculator returns `NaN` for `vcg_cls_mean`, `pnr_cls_mean`
and the Horn fraction: `calculate_clause_stats` divides each of them, still 0, by
`numClauses = 0`. The minima and maxima keep their sentinels, as the claim says. -/
theorem C7_means_of_no_clause_are_nan (sq : ℚ → ℚ) (ndebug : Bool) (t0 t1 : Dbl) :
    wellFormed exNoClause = true
      ∧ allTrace ndebug exNoClause = .ok []
      ∧ (extract sq ndebug exNoClause t0 t1 freshCalc).map
          (fun e => (e.result.numClauses, e.result.vcg_cls_mean, e.result.pnr_cls_mean,
            e.result.horn))
          = .ok (0, .nan, .nan, .nan)
      ∧ (extract sq ndebug exNoClause t0 t1 freshCalc).map
          (fun e => (e.result.vcg_cls_min, e.result.vcg_cls_max, e.result.pnr_cls_min,
            e.result.pnr_cls_max))
          = .ok (.pinf, .ninf, .pinf, .ninf) := by
  refine ⟨by decide, by cases ndebug <;> decide, ?_, ?_⟩
  · rw [extract_field
      (fun f => (f.numClauses, f.vcg_cls_mean, f.pnr_cls_mean, f.horn)) (fun _ => rfl)
      sq (fun _ => 0) ndebug _ t0 t1 (.fin 0) (.fin 0)]
    cases ndebug <;> decide!
  · rw [extract_field
      (fun f => (f.vcg_cls_min, f.vcg_cls_max, f.pnr_cls_min, f.pnr_cls_max)) (fun _ => rfl)
      sq (fun _ => 0) ndebug _ t0 t1 (.fin 0) (.fin 0)]
    cases ndebug <;> decide!

/-! ## C8: the binary and ternary fractions -/

theorem clause_stats_cb_numClauses (a b c : Nat) (f : SolveFeatures) :
    (calculate_clause_stats.func_each_cl a b c f).numClauses = f.numClauses := by
  unfold calculate_clause_stats.func_each_cl
  split_ifs <;> rfl

theorem float_div_fin (a b : ℚ) (hb : b ≠ 0) :
    float_div (Dbl.fin a) (Dbl.fin b) = Dbl.fin (a / b) := by
  simp [float_div, Dbl.ne, hb, Dbl.div_fin]

/-- C8: when the traversal does not abort and `numClauses`, the number of irredundant
arbitrary-size clauses plus `irredBins` plus `irredTris`, is at least 1,
`calculate_clause_stats` returns with the binary fraction `irredBins / numClauses` and the
ternary fraction `irredTris / numClauses`, both finite; their sum is at most 1, and exactly 1
when there is no irredundant arbitrary-size clause. -/
theorem C8_binary_plus_trinary_at_most_one (ndebug : Bool) (solver : Solver)
    (c : SolveFeaturesCalc) (t : List Call) (hT : allTrace ndebug solver = .ok t)
    (hN : c.feat.numClauses
      = solver.longIrredCls.length + solver.binTri.irredBins + solver.binTri.irredTris)
    (hpos : 1 ≤ c.feat.numClauses) :
    ∃ c2 : SolveFeaturesCalc, calculate_clause_stats ndebug solver c = .ok c2
      ∧ c2.feat.binary = .fin ((solver.binTri.irredBins : ℚ) / c.feat.numClauses)
      ∧ c2.feat.trinary = .fin ((solver.binTri.irredTris : ℚ) / c.feat.numClauses)
      ∧ c2.feat.binary + c2.feat.trinary
          = .fin (((solver.binTri.irredBins : ℚ) + solver.binTri.irredTris)
              / c.feat.numClauses)
      ∧ ((solver.binTri.irredBins : ℚ) + solver.binTri.irredTris) / c.feat.numClauses ≤ 1
      ∧ (solver.longIrredCls = [] →
          ((solver.binTri.irredBins : ℚ) + solver.binTri.irredTris) / c.feat.numClauses
            = 1) := by
  have hq : (0 : ℚ) < c.feat.numClauses := by exact_mod_cast hpos
  have hn : (replay calculate_clause_stats.func_each_cl empty_func c.feat t).numClauses
      = c.feat.numClauses :=
    replay_frame (fun f => f.numClauses) _ _ clause_stats_cb_numClauses
      (fun _ _ _ _ _ => rfl) t c.feat
  have hb : (calculate_clause_stats.onTrace solver t c).feat.binary
      = .fin ((solver.binTri.irredBins : ℚ) / c.feat.numClauses) := by
    show float_div _ _ = _
    simp only [Dbl.ofNat]
    rw [float_div_fin _ _ (by rw [hn]; exact hq.ne'), hn]
  have ht : (calculate_clause_stats.onTrace solver t c).feat.trinary
      = .fin ((solver.binTri.irredTris : ℚ) / c.feat.numClauses) := by
    show float_div _ _ = _
    simp only [Dbl.ofNat]
    rw [float_div_fin _ _ (by rw [hn]; exact hq.ne'), hn]
  refine ⟨_, calculate_clause_stats_ok ndebug solver t hT c, hb, ht, ?_, ?_, ?_⟩
  · rw [hb, ht, Dbl.add_fin, add_div]
  · rw [div_le_one hq]
    have : solver.binTri.irredBins + solver.binTri.irredTris ≤ c.feat.numClauses := by omega
    exact_mod_cast this
  · intro hl
    have : solver.binTri.irredBins + solver.binTri.irredTris = c.feat.numClauses := by
      rw [hN, hl]; simp
    rw [div_eq_one_iff_eq hq.ne']
    exact_mod_cast this

/-- Witness of C8: the state holding the one binary clause `(x0 or x1)`, after the
accumulation pass. -/
theorem C8_binary_plus_trinary_at_most_one_witness :
    ∃ c2 : SolveFeaturesCalc,
      calculate_clause_stats false exBinary (fill_vars_cls.onTrace exBinary
          [.each_cl 2 2 0, .each_lit ⟨0⟩ 2 2 0, .each_lit ⟨2⟩ 2 2 0] freshCalc) = .ok c2
        ∧ c2.feat.binary + c2.feat.trinary = .fin 1 := by
  obtain ⟨c2, h1, _, _, h4, _, h6⟩ :=
    C8_binary_plus_trinary_at_most_one false exBinary
      (fill_vars_cls.onTrace exBinary
        [.each_cl 2 2 0, .each_lit ⟨0⟩ 2 2 0, .each_lit ⟨2⟩ 2 2 0] freshCalc)
      [.each_cl 2 2 0, .each_lit ⟨0⟩ 2 2 0, .each_lit ⟨2⟩ 2 2 0]
      (by decide) (by decide) (by decide)
  exact ⟨c2, h1, by rw [h4, h6 rfl]⟩

/-! ## C9: the normalized standard deviations -/

theorem Dbl.lt_fin (a b : ℚ) : Dbl.lt (Dbl.fin a) (Dbl.fin b) = decide (a < b) := rfl

theorem gt_eps_ne_zero (eps m : Dbl) (heps : Dbl.lt eps (.fin 0) = false)
    (hm : Dbl.gt m eps = true) : Dbl.ne m (.fin 0) = true := by
  cases eps <;> cases m <;> simp_all [Dbl.gt, Dbl.lt, Dbl.ne]
  rename_i e x
  intro hx
  rw [hx] at hm
  exact absurd (lt_of_le_of_lt heps hm) (lt_irrefl _)

theorem extra_clause_finish_std (sq : ℚ → ℚ) (f : SolveFeatures) :
    (calculate_extra_clause_stats.finish sq f).vcg_cls_std
        = claimedStd sq f.eps f.vcg_cls_std f.vcg_cls_mean f.numClauses
      ∧ (calculate_extra_clause_stats.finish sq f).pnr_cls_std
        = claimedStd sq f.eps f.pnr_cls_std f.pnr_cls_mean f.numClauses := by
  unfold calculate_extra_clause_stats.finish claimedStd
  dsimp only
  split_ifs <;> exact ⟨rfl, rfl⟩

theorem extra_var_finish_code (sq : ℚ → ℚ) (f : SolveFeatures) :
    (calculate_extra_var_stats.finish sq f).vcg_var_std
        = (if Dbl.gt f.vcg_var_std f.eps && Dbl.gt f.vcg_var_mean f.eps then
            Dbl.sqrt sq (f.vcg_var_std / Dbl.ofNat f.numVars) / f.vcg_var_mean
          else .fin 0)
      ∧ (calculate_extra_var_stats.finish sq f).pnr_var_std
        = (if Dbl.gt f.pnr_var_std f.eps && Dbl.gt f.pnr_var_mean f.eps
              && Dbl.ne f.pnr_var_mean (.fin 0) then
            Dbl.sqrt sq (f.pnr_var_std / Dbl.ofNat f.numVars) / f.pnr_var_mean
          else .fin 0)
      ∧ (calculate_extra_var_stats.finish sq f).horn_std
        = (if Dbl.gt (f.horn_std / Dbl.ofNat f.numVars) f.eps && Dbl.gt f.horn_mean f.eps
              && Dbl.ne f.horn_mean (.fin 0) then
            Dbl.sqrt sq (f.horn_std / Dbl.ofNat f.numVars) / f.horn_mean
          else .fin 0) := by
  unfold calculate_extra_var_stats.finish
  dsimp only
  split_ifs <;> exact ⟨rfl, rfl, rfl⟩

theorem extra_var_finish_std (sq : ℚ → ℚ) (f : SolveFeatures)
    (heps : Dbl.lt f.eps (.fin 0) = false) :
    (calculate_extra_var_stats.finish sq f).vcg_var_std
        = claimedStd sq f.eps f.vcg_var_std f.vcg_var_mean f.numVars
      ∧ (calculate_extra_var_stats.finish sq f).pnr_var_std
        = claimedStd sq f.eps f.pnr_var_std f.pnr_var_mean f.numVars
      ∧ (calculate_extra_var_stats.finish sq f).horn_std
        = meanSquareStd sq f.eps f.horn_std f.horn_mean f.numVars := by
  have k : ∀ S m, (Dbl.gt S f.eps && Dbl.gt m f.eps && Dbl.ne m (.fin 0))
      = (Dbl.gt S f.eps && Dbl.gt m f.eps) := by
    intro S m
    cases h : Dbl.gt m f.eps
    · simp
    · simp [gt_eps_ne_zero _ _ heps h]
  obtain ⟨h1, h2, h3⟩ := extra_var_finish_code sq f
  rw [k] at h2 h3
  exact ⟨h1, h2, h3⟩

theorem extra_clause_cb_frame (a b c : Nat) (f : SolveFeatures) :
    (fun g : SolveFeatures => (g.eps, g.vcg_cls_mean, g.pnr_cls_mean, g.numClauses))
        (calculate_extra_clause_stats.each_clause a b c f)
      = (f.eps, f.vcg_cls_mean, f.pnr_cls_mean, f.numClauses) := by
  unfold calculate_extra_clause_stats.each_clause
  split_ifs <;> rfl

theorem extra_var_fold_frame (vs : List VARIABLE) (f : SolveFeatures) :
    (fun g : SolveFeatures =>
        (g.eps, g.vcg_var_mean, g.pnr_var_mean, g.horn_mean, g.numVars))
        (vs.foldl calculate_extra_var_stats.body f)
      = (f.eps, f.vcg_var_mean, f.pnr_var_mean, f.horn_mean, f.numVars) := by
  induction vs generalizing f with
  | nil => rfl
  | cons v vs ih =>
    simp only [List.foldl_cons]
    refine (ih _).trans ?_
    unfold calculate_extra_var_stats.body
    split_ifs <;> rfl

theorem extra_var_stats_feat (sq : ℚ → ℚ) (c : SolveFeaturesCalc) (hv : c.feat.numVars ≠ 0) :
    (calculate_extra_var_stats sq c).feat
      = calculate_extra_var_stats.finish sq
          (c.myVars.foldl calculate_extra_var_stats.body c.feat) := by
  unfold calculate_extra_var_stats
  rw [if_neg hv]

/-- C9 (fails on the code): for the calculator `exHornSpreadMeans` (500 clauses, 200 active
variables with Horn counts 5 and 8, epsilon `0.00001`) the mean of the Horn ratio is
`m = 0.013 > eps` and the sum of its squared deviations from `m` over the active variables is
`S = 0.0018 > eps`, which is also what the pass accumulates; the claim gives
`horn_std = sqrt(S / N) / m = sqrt(0.000009) / 0.013`, but the code reports `horn_std = 0`,
whatever the square root: its guard compares `S / N = 0.000009` with `eps`. At the same input
`vcg_var_std`, guarded like the other three, follows the rule of the claim. -/
theorem C9_horn_std_guard_compares_mean_square (sq : ℚ → ℚ) :
    (exHornSpreadMeans.feat.eps, exHornSpreadMeans.feat.numVars,
        exHornSpreadMeans.feat.numClauses, exHornSpreadMeans.feat.horn_mean)
        = (.fin (1 / 100000), 200, 500, .fin (13 / 1000))
      ∧ ratioSum exHornSpreadMeans.myVars (fun v => (v.horn : ℚ) / 500) / 200 = 13 / 1000
      ∧ sqDevSum exHornSpreadMeans.myVars (fun v => (v.horn : ℚ) / 500) (13 / 1000)
          = 9 / 5000
      ∧ (exHornSpreadMeans.myVars.foldl calculate_extra_var_stats.body
            exHornSpreadMeans.feat).horn_std = .fin (9 / 5000)
      ∧ claimedStd sq (.fin (1 / 100000)) (.fin (9 / 5000)) (.fin (13 / 1000)) 200
          = .fin (sq (9 / 1000000) / (13 / 1000))
      ∧ (calculate_extra_var_stats sq exHornSpreadMeans).feat.horn_std = .fin 0
      ∧ (calculate_extra_var_stats sq exHornSpreadMeans).feat.vcg_var_std
          = claimedStd sq exHornSpreadMeans.feat.eps
              (exHornSpreadMeans.myVars.foldl calculate_extra_var_stats.body
                exHornSpreadMeans.feat).vcg_var_std
              exHornSpreadMeans.feat.vcg_var_mean exHornSpreadMeans.feat.numVars := by
  have e1 : exHornSpreadMeans.feat.eps = .fin (1 / 100000) := by decide!
  have e2 : (exHornSpreadMeans.myVars.foldl calculate_extra_var_stats.body
      exHornSpreadMeans.feat).horn_std = .fin (9 / 5000) := by decide!
  have e3 : exHornSpreadMeans.feat.horn_mean = .fin (13 / 1000) := by decide!
  have e4 : exHornSpreadMeans.feat.numVars = 200 := by decide!
  have hv : exHornSpreadMeans.feat.numVars ≠ 0 := by rw [e4]; decide
  have fv := extra_var_fold_frame exHornSpreadMeans.myVars exHornSpreadMeans.feat
  simp only [Prod.mk.injEq] at fv
  obtain ⟨fv1, fv2, -, fv4, fv5⟩ := fv
  obtain ⟨c1, -, c3⟩ := extra_var_finish_std sq
    (exHornSpreadMeans.myVars.foldl calculate_extra_var_stats.body exHornSpreadMeans.feat)
    (by rw [fv1, e1]; decide!)
  rw [fv1, fv2, fv5] at c1
  rw [fv1, fv4, fv5, e1, e2, e3, e4] at c3
  have d : (9 / 5000 : ℚ) / ((200 : ℕ) : ℚ) = 9 / 1000000 := by norm_num
  have h200 : ((200 : ℕ) : ℚ) ≠ 0 := by norm_num
  refine ⟨by decide!, by decide!, by decide!, e2, ?_, ?_, ?_⟩
  · simp only [claimedStd, Dbl.gt, Dbl.lt_fin, Dbl.ofNat, Dbl.div_fin _ _ h200, d, Dbl.sqrt]
    norm_num
    rw [Dbl.div_fin _ _ (by norm_num)]
  · rw [extra_var_stats_feat sq _ hv, c3]
    simp only [meanSquareStd, Dbl.gt, Dbl.lt_fin, Dbl.ofNat, Dbl.div_fin _ _ h200, d]
    norm_num
  · rw [extra_var_stats_feat sq _ hv, c1]

/-! ## C10: the extremes of the clause-side ratios -/

/-- C10 (fails on the code): for the state holding the one clause `(x0 or x1)`, whose size
ratio is `2 / 2 = 1` and whose positive/negative ratio is 1, `calculate_clause_stats` on a
fresh record leaves `vcg_cls_min = vcg_cls_max = 1` and `pnr_cls_min = 1`, but `pnr_cls_max`
keeps its sentinel `-inf` (it is updated with `std::min`), so that `pnr_cls_spread` is
`-inf`, not `max - min = 0`; `extract` returns the same values. -/
theorem C10_pnr_cls_max_keeps_its_sentinel (sq : ℚ → ℚ) (ndebug : Bool) (t0 t1 : Dbl) :
    allTrace ndebug exBinary
        = .ok [.each_cl 2 2 0, .each_lit ⟨0⟩ 2 2 0, .each_lit ⟨2⟩ 2 2 0]
      ∧ (do
          let c ← fill_vars_cls ndebug exBinary freshCalc
          let c ← calculate_clause_stats ndebug exBinary (extract.active_vars c)
          pure (c.feat.vcg_cls_min, c.feat.vcg_cls_max, c.feat.vcg_cls_spread,
            c.feat.pnr_cls_min, c.feat.pnr_cls_max, c.feat.pnr_cls_spread) :
          Except Fault (Dbl × Dbl × Dbl × Dbl × Dbl × Dbl))
        = .ok (.fin 1, .fin 1, .fin 0, .fin 1, .ninf, .ninf)
      ∧ (extract sq ndebug exBinary t0 t1 freshCalc).map
          (fun e => (e.result.vcg_cls_min, e.result.vcg_cls_max, e.result.vcg_cls_spread,
            e.result.pnr_cls_min, e.result.pnr_cls_max, e.result.pnr_cls_spread))
        = .ok (.fin 1, .fin 1, .fin 0, .fin 1, .ninf, .ninf) := by
  refine ⟨by cases ndebug <;> decide, by cases ndebug <;> decide!, ?_⟩
  rw [extract_field
    (fun f => (f.vcg_cls_min, f.vcg_cls_max, f.vcg_cls_spread, f.pnr_cls_min, f.pnr_cls_max,
      f.pnr_cls_spread)) (fun _ => rfl) sq (fun _ => 0) ndebug _ t0 t1 (.fin 0) (.fin 0)]
  cases ndebug <;> decide!

/-! ## C11: the extremes of the variable-side ratios -/

/-- C11 (fails on the code): for the state holding the one clause `(x0 or x1)` (two active
variables, each with occurrence ratio 1, positive/negative ratio 1 and Horn ratio 0),
`calculate_variable_stats` on a fresh record leaves `vcg_var_min = pnr_var_min = 1`, but
`vcg_var_max`, `pnr_var_max` and `horn_max` keep the sentinel `-inf` (they are updated with
`std::min`) and `horn_min` is `-inf` as well (it is computed from `horn_max`); the spreads
are `-inf`, `-inf` and `NaN` instead of 0. `extract` returns the same values. -/
theorem C11_variable_maxima_keep_their_sentinel (sq : ℚ → ℚ) (ndebug : Bool)
    (t0 t1 : Dbl) :
    allTrace ndebug exBinary
        = .ok [.each_cl 2 2 0, .each_lit ⟨0⟩ 2 2 0, .each_lit ⟨2⟩ 2 2 0]
      ∧ exBinaryMeans.myVars = [⟨1, 1, 0⟩, ⟨1, 1, 0⟩]
      ∧ (exBinaryMeans.feat.numVars, exBinaryMeans.feat.numClauses) = (2, 1)
      ∧ (exBinaryMeans.feat.vcg_var_min, exBinaryMeans.feat.vcg_var_max,
          exBinaryMeans.feat.vcg_var_spread) = (.fin 1, .ninf, .ninf)
      ∧ (exBinaryMeans.feat.pnr_var_min, exBinaryMeans.feat.pnr_var_max,
          exBinaryMeans.feat.pnr_var_spread) = (.fin 1, .ninf, .ninf)
      ∧ (exBinaryMeans.feat.horn_min, exBinaryMeans.feat.horn_max,
          exBinaryMeans.feat.horn_spread) = (.ninf, .ninf, .nan)
      ∧ (extract sq ndebug exBinary t0 t1 freshCalc).map
          (fun e => ((e.result.vcg_var_min, e.result.vcg_var_max, e.result.vcg_var_spread),
            (e.result.pnr_var_min, e.result.pnr_var_max, e.result.pnr_var_spread),
            (e.result.horn_min, e.result.horn_max, e.result.horn_spread)))
        = .ok ((.fin 1, .ninf, .ninf), (.fin 1, .ninf, .ninf), (.ninf, .ninf, .nan)) := by
  refine ⟨by cases ndebug <;> decide, by decide!, by decide!, by decide!, by decide!,
    by decide!, ?_⟩
  rw [extract_field
    (fun f => ((f.vcg_var_min, f.vcg_var_max, f.vcg_var_spread),
      (f.pnr_var_min, f.pnr_var_max, f.pnr_var_spread),
      (f.horn_min, f.horn_max, f.horn_spread))) (fun _ => rfl) sq (fun _ => 0) ndebug _ t0 t1
    (.fin 0) (.fin 0)]
  cases ndebug <;> decide!

/-! ## C12: the distribution stage on an empty collection -/

/-- C12: for every solver state (whatever its activity increment) and every distribution
summary `d`, `calculate_cl_distributions` called with the empty clause collection returns `d`
itself, all six fields unchanged: the function returns before any sum or division. -/
theorem C12_empty_collection_leaves_summary (solver : Solver) (d : Distrib) :
    calculate_cl_distributions solver [] d = d
      ∧ calculate_cl_distributions solver [] Distrib.zero
          = ⟨.fin 0, .fin 0, .fin 0, .fin 0, .fin 0, .fin 0⟩ :=
  ⟨rfl, rfl⟩

/-! ## C15: the index marker -/

/-- C15 (counterexample): with assertions compiled in, the irredundant ternary entry found
under the literal 0 that stores `lit2 = 4` and `lit3 = 2` is an entry of a clause kind, and
`for_one_clause` does not return normally on it: `assert(cl.lit2() < cl.lit3())` fails. -/
theorem C15_ternary_entry_can_abort :
    oneTrace false exBinary (.tertiary ⟨4⟩ ⟨2⟩ false) ⟨0⟩ = .error .assertion := by
  decide

/-- C15 (amended): on an entry of the index kind `for_one_clause` aborts (a failed assertion,
or `exit(-1)` when assertions are compiled out), whatever the current literal, the callbacks
and the state, so that no callback result is kept. On an entry of one of the three clause
kinds it returns normally, except for an irredundant ternary entry that passes the order test
with `lit2 >= lit3` while assertions are compiled in, which aborts on the assertion. -/
theorem C15_index_marker_aborts (ndebug : Bool) (solver : Solver) (lit : Lit) :
    (∀ (i : Nat) (σ : Type) (f : Nat → Nat → Nat → σ → σ)
        (g : Lit → Nat → Nat → Nat → σ → σ) (st : σ),
        for_one_clause ndebug solver (.idx i) lit f g st
          = .error (if ndebug then .exit else .assertion))
      ∧ (∀ i, oneTrace ndebug solver (.idx i) lit
          = .error (if ndebug then .exit else .assertion))
      ∧ (∀ (cl : Watched), (∀ i, cl ≠ .idx i) →
          ∀ (σ : Type) (f : Nat → Nat → Nat → σ → σ) (g : Lit → Nat → Nat → Nat → σ → σ)
            (st : σ),
            (assertFails ndebug cl lit = false →
                ∃ st2, for_one_clause ndebug solver cl lit f g st = .ok st2)
              ∧ (assertFails ndebug cl lit = true →
                for_one_clause ndebug solver cl lit f g st = .error .assertion)) := by
  refine ⟨fun _ _ _ _ _ => rfl, fun _ => rfl, ?_⟩
  intro cl hcl σ f g st
  cases cl with
  | binary lit2 red =>
    refine ⟨fun _ => ?_, fun h => by simp [assertFails] at h⟩
    simp only [for_one_clause]
    split_ifs <;> exact ⟨_, rfl⟩
  | tertiary lit2 lit3 red =>
    refine ⟨fun h => ?_, fun h => ?_⟩
    · simp only [for_one_clause]
      split_ifs with h1 h2 h3
      · exact ⟨_, rfl⟩
      · exact ⟨_, rfl⟩
      · exfalso
        simp [assertFails, h1, h2] at h
        simp at h3
        cases ndebug <;> simp_all
      · exact ⟨_, rfl⟩
    · simp only [assertFails, Bool.and_eq_true, Bool.not_eq_true', decide_eq_false_iff_not]
        at h
      obtain ⟨⟨⟨h1, h2⟩, h3⟩, h4⟩ := h
      simp [for_one_clause, h1, h2, h3, h4]
  | clause offset =>
    refine ⟨fun _ => ?_, fun h => by simp [assertFails] at h⟩
    simp only [for_one_clause]
    split_ifs <;> exact ⟨_, rfl⟩
  | idx i => exact absurd rfl (hcl i)

/-! ## C16: one owner for a binary or ternary clause -/

theorem Lit.lt_iff (a b : Lit) : a < b ↔ a.x < b.x := Iff.rfl

theorem Lit.ne_iff (a b : Lit) : a ≠ b ↔ a.x ≠ b.x := by
  constructor
  · intro h hx
    apply h
    cases a; cases b; simp_all
  · intro h hab
    exact h (by rw [hab])

theorem oneTrace_binary (ndebug : Bool) (solver : Solver) (a b : Lit) :
    oneTrace ndebug solver (.binary b false) a
      = if b < a then .ok []
        else .ok (callsOf 2 (posCount [a, b]) (2 - posCount [a, b]) [a, b]) := by
  rcases oneTrace_cases ndebug solver (.binary b false) a (by simp [entryLits]) with h | h | h
  · by_cases hb : b < a
    · rw [if_pos hb, h]
    · exfalso
      simp [oneTrace, for_one_clause, hb, Call.rec_cl, Call.rec_lit] at h
  · obtain ⟨e, he⟩ := h
    simp only [oneTrace, for_one_clause] at he
    split_ifs at he
  · by_cases hb : b < a
    · exfalso
      simp [oneTrace, for_one_clause, hb, callsOf] at h
    · rw [if_neg hb, h]; rfl

theorem oneTrace_tertiary (ndebug : Bool) (solver : Solver) (a b c : Lit) (hbc : b < c) :
    oneTrace ndebug solver (.tertiary b c false) a
      = if b < a then .ok []
        else .ok (callsOf 3 (posCount [a, b, c]) (3 - posCount [a, b, c]) [a, b, c]) := by
  rcases oneTrace_cases ndebug solver (.tertiary b c false) a (by simp [entryLits])
    with h | h | h
  · by_cases hb : b < a
    · rw [if_pos hb, h]
    · exfalso
      simp [oneTrace, for_one_clause, hb, hbc, Call.rec_cl, Call.rec_lit] at h
  · obtain ⟨e, he⟩ := h
    simp only [oneTrace, for_one_clause] at he
    split_ifs at he <;> simp_all
  · by_cases hb : b < a
    · exfalso
      simp [oneTrace, for_one_clause, hb, callsOf] at h
    · rw [if_neg hb, h]; rfl

/-- C16: for an irredundant binary clause of distinct literals `a < b`, and an irredundant
ternary clause of distinct literals `a < b < c` whose watch entries store the two other
literals in increasing order, `for_one_clause` invokes the callbacks for the entry found under
the smallest literal `a` (with the literals and counts of the clause) and for no other entry
of the clause: exactly one of the 2, respectively 3, watch entries is counted. -/
theorem C16_smallest_literal_owns_the_clause (ndebug : Bool) (solver : Solver) (a b c : Lit)
    (hab : a < b) (hbc : b < c) :
    oneTrace ndebug solver (.binary b false) a
        = .ok (callsOf 2 (posCount [a, b]) (2 - posCount [a, b]) [a, b])
      ∧ oneTrace ndebug solver (.binary a false) b = .ok []
      ∧ oneTrace ndebug solver (triEntry b c) a
        = .ok (callsOf 3 (posCount [a, b, c]) (3 - posCount [a, b, c]) [a, b, c])
      ∧ oneTrace ndebug solver (triEntry a c) b = .ok []
      ∧ oneTrace ndebug solver (triEntry a b) c = .ok []
      ∧ ([oneTrace ndebug solver (.binary b false) a,
            oneTrace ndebug solver (.binary a false) b].countP (fun r => r ≠ .ok [])) = 1
      ∧ ([oneTrace ndebug solver (triEntry b c) a, oneTrace ndebug solver (triEntry a c) b,
            oneTrace ndebug solver (triEntry a b) c].countP (fun r => r ≠ .ok [])) = 1 := by
  rw [Lit.lt_iff] at hab hbc
  have hac : a < c := by rw [Lit.lt_iff]; omega
  have nba : ¬ b < a := by rw [Lit.lt_iff]; omega
  have ncb : ¬ c < b := by rw [Lit.lt_iff]; omega
  have nca : ¬ c < a := by rw [Lit.lt_iff]; omega
  have hab2 : a < b := hab
  have hbc2 : b < c := hbc
  have e1 : triEntry b c = .tertiary b c false := by simp [triEntry, sortPair, ncb]
  have e2 : triEntry a c = .tertiary a c false := by simp [triEntry, sortPair, nca]
  have e3 : triEntry a b = .tertiary a b false := by simp [triEntry, sortPair, nba]
  have b1 := oneTrace_binary ndebug solver a b
  have b2 := oneTrace_binary ndebug solver b a
  have t1 := oneTrace_tertiary ndebug solver a b c hbc2
  have t2 := oneTrace_tertiary ndebug solver b a c hac
  have t3 := oneTrace_tertiary ndebug solver c a b hab2
  rw [if_neg nba] at b1 t1
  rw [if_pos hab2] at b2 t2
  rw [if_pos hac] at t3
  rw [e1, e2, e3, b1, b2, t1, t2, t3]
  refine ⟨rfl, rfl, rfl, rfl, rfl, ?_, ?_⟩ <;> simp [callsOf]

/-- Witness of C16: the clauses `(x0 or x1)` and `(x0 or x1 or x2)`. -/
theorem C16_smallest_literal_owns_the_clause_witness :
    oneTrace false exBinary (.binary ⟨2⟩ false) ⟨0⟩
        = .ok [.each_cl 2 2 0, .each_lit ⟨0⟩ 2 2 0, .each_lit ⟨2⟩ 2 2 0]
      ∧ oneTrace false exBinary (.binary ⟨0⟩ false) ⟨2⟩ = .ok [] :=
  ⟨(C16_smallest_literal_owns_the_clause false exBinary ⟨0⟩ ⟨2⟩ ⟨4⟩ (by decide) (by decide)).1,
    (C16_smallest_literal_owns_the_clause false exBinary ⟨0⟩ ⟨2⟩ ⟨4⟩ (by decide)
      (by decide)).2.1⟩

/-! ## C17: the test of an arbitrary-size entry -/

/-- C17 (fails on the code): the irredundant clause of `exLongAscending`, watched under
its first two literals 0 and 2, has `clause[0] < clause[1]`, and neither of its two watch
entries invokes a callback, where the claim has it counted; the irredundant clause of
`exLongDescending` has `clause[0] > clause[1]`, and both of its watch entries invoke the
callbacks, where the claim has it skipped. -/
theorem C17_ascending_clause_is_skipped :
    (exLongAscending.cl_alloc 0).red = false
      ∧ (exLongAscending.cl_alloc 0).get 0 < (exLongAscending.cl_alloc 0).get 1
      ∧ oneTrace false exLongAscending (.clause 0) ⟨0⟩ = .ok []
      ∧ oneTrace false exLongAscending (.clause 0) ⟨2⟩ = .ok []
      ∧ (exLongDescending.cl_alloc 0).red = false
      ∧ ¬ (exLongDescending.cl_alloc 0).get 0 < (exLongDescending.cl_alloc 0).get 1
      ∧ oneTrace false exLongDescending (.clause 0) ⟨0⟩
          = .ok [.each_cl 4 4 0, .each_lit ⟨2⟩ 4 4 0, .each_lit ⟨0⟩ 4 4 0,
              .each_lit ⟨4⟩ 4 4 0, .each_lit ⟨6⟩ 4 4 0]
      ∧ oneTrace false exLongDescending (.clause 0) ⟨2⟩
          = .ok [.each_cl 4 4 0, .each_lit ⟨2⟩ 4 4 0, .each_lit ⟨0⟩ 4 4 0,
              .each_lit ⟨4⟩ 4 4 0, .each_lit ⟨6⟩ 4 4 0] := by
  decide

/-! ## C13: a uniform clause population -/

theorem foldl_add_const {α : Type} (F : α → Dbl) (c : ℚ) (l : List α)
    (h : ∀ x ∈ l, F x = Dbl.fin c) (x0 : ℚ) :
    l.foldl (fun m x => m + F x) (Dbl.fin x0) = Dbl.fin (x0 + l.length * c) := by
  induction l generalizing x0 with
  | nil => simp
  | cons a l ih =>
    simp only [List.foldl_cons, List.length_cons]
    rw [h a (List.mem_cons_self _ _), Dbl.add_fin,
      ih (fun x hx => h x (List.mem_cons_of_mem _ hx))]
    congr 1
    push_cast
    ring

theorem Dbl.pow2_sub_self (c : ℚ) : Dbl.pow2 (Dbl.fin c - Dbl.fin c) = Dbl.fin 0 := by
  rw [Dbl.sub_fin]
  show Dbl.fin ((c - c) * (c - c)) = _
  simp

/-- C13: for a non-empty clause collection and a finite non-zero activity increment, if every
clause of the collection has the same size `s`, the same glue `g` and the same finite activity
`a`, then in exact arithmetic `calculate_cl_distributions` sets the means to `s`, `g` and
`a / cla_inc` and the three variances to exactly 0. -/
theorem C13_uniform_population_has_zero_variance (solver : Solver) (clauses : List Nat)
    (d : Distrib) (s g : Nat) (a k : ℚ) (hne : clauses ≠ [])
    (hk : solver.cla_inc = .fin k) (hk0 : k ≠ 0)
    (h : ∀ off ∈ clauses, (solver.cl_alloc off).size = s
      ∧ (solver.cl_alloc off).stats.glue = g
      ∧ (solver.cl_alloc off).stats.activity = .fin a) :
    calculate_cl_distributions solver clauses d
      = { glue_distr_mean := .fin g
          glue_distr_var := .fin 0
          size_distr_mean := .fin s
          size_distr_var := .fin 0
          activity_distr_mean := .fin (a / k)
          activity_distr_var := .fin 0 } := by
  have hn : (clauses.length : ℚ) ≠ 0 := by
    have : clauses.length ≠ 0 := by
      intro h0; exact hne (List.length_eq_zero.mp h0)
    exact_mod_cast this
  have hemp : clauses.isEmpty = false := by
    cases clauses with
    | nil => exact absurd rfl hne
    | cons _ _ => rfl
  have mean (c : ℚ) : Dbl.fin (0 + clauses.length * c) / Dbl.ofNat clauses.length
      = Dbl.fin c := by
    rw [Dbl.ofNat, Dbl.div_fin _ _ hn]
    congr 1
    field_simp
  have var0 : Dbl.fin (0 + clauses.length * 0) / Dbl.ofNat clauses.length = Dbl.fin 0 := by
    rw [Dbl.ofNat, Dbl.div_fin _ _ hn]
    congr 1
    simp
  have m1 := foldl_add_const (fun off => Dbl.ofNat (solver.cl_alloc off).size) s clauses
    (fun x hx => by simp [Dbl.ofNat, (h x hx).1]) 0
  have m2 := foldl_add_const (fun off => Dbl.ofNat (solver.cl_alloc off).stats.glue) g clauses
    (fun x hx => by simp [Dbl.ofNat, (h x hx).2.1]) 0
  have m3 := foldl_add_const (fun off => (solver.cl_alloc off).stats.activity / solver.cla_inc)
    (a / k) clauses
    (fun x hx => by
      show (solver.cl_alloc x).stats.activity / solver.cla_inc = _
      rw [(h x hx).2.2, hk, Dbl.div_fin _ _ hk0]) 0
  have v1 := foldl_add_const
    (fun off => Dbl.pow2 (Dbl.fin s - Dbl.ofNat (solver.cl_alloc off).size)) 0 clauses
    (fun x hx => by
      show Dbl.pow2 (Dbl.fin s - Dbl.ofNat (solver.cl_alloc x).size) = _
      rw [(h x hx).1]; exact Dbl.pow2_sub_self _) 0
  have v2 := foldl_add_const
    (fun off => Dbl.pow2 (Dbl.fin g - Dbl.ofNat (solver.cl_alloc off).stats.glue)) 0 clauses
    (fun x hx => by
      show Dbl.pow2 (Dbl.fin g - Dbl.ofNat (solver.cl_alloc x).stats.glue) = _
      rw [(h x hx).2.1]; exact Dbl.pow2_sub_self _) 0
  have v3 := foldl_add_const
    (fun off => Dbl.pow2
      (Dbl.fin (a / k) - (solver.cl_alloc off).stats.activity / solver.cla_inc)) 0 clauses
    (fun x hx => by
      show Dbl.pow2 (Dbl.fin (a / k) - (solver.cl_alloc x).stats.activity / solver.cla_inc)
        = _
      rw [(h x hx).2.2, hk, Dbl.div_fin _ _ hk0]; exact Dbl.pow2_sub_self _) 0
  unfold calculate_cl_distributions
  simp only [hemp, Bool.false_eq_true, if_false]
  rw [m1, m2, m3, mean, mean, mean, v1, v2, v3, var0]

/-- Witness of C13: three clauses of size 3, glue 2 and activity 6 with the increment 4. -/
theorem C13_uniform_population_has_zero_variance_witness :
    calculate_cl_distributions exUniform [0, 1, 2] Distrib.zero
      = { glue_distr_mean := .fin 2
          glue_distr_var := .fin 0
          size_distr_mean := .fin 3
          size_distr_var := .fin 0
          activity_distr_mean := .fin (6 / 4)
          activity_distr_var := .fin 0 } := by
  have h := C13_uniform_population_has_zero_variance exUniform [0, 1, 2] Distrib.zero 3 2 6 4
    (by decide) rfl (by norm_num) (fun _ _ => ⟨rfl, rfl, rfl⟩)
  simpa using h

/-! ## C14: the count of the active variables -/

theorem clause_stats_onTrace_counts (solver : Solver) (t : List Call) (c : SolveFeaturesCalc) :
    (calculate_clause_stats.onTrace solver t c).feat.counts = c.feat.counts
      ∧ (calculate_clause_stats.onTrace solver t c).myVars = c.myVars := by
  refine ⟨?_, rfl⟩
  have h := replay_frame SolveFeatures.counts calculate_clause_stats.func_each_cl empty_func
    (by
      intro a b c x
      unfold calculate_clause_stats.func_each_cl
      split_ifs <;> rfl)
    (fun _ _ _ _ _ => rfl) t c.feat
  exact h

theorem var_stats_fold_counts (vs : List VARIABLE) (f : SolveFeatures) :
    (vs.foldl calculate_variable_stats.body f).counts = f.counts := by
  induction vs generalizing f with
  | nil => rfl
  | cons v vs ih =>
    simp only [List.foldl_cons]
    refine (ih _).trans ?_
    unfold calculate_variable_stats.body
    split_ifs <;> rfl

theorem var_stats_finish_counts (f : SolveFeatures) :
    (calculate_variable_stats.finish f).counts = f.counts := by
  unfold calculate_variable_stats.finish
  dsimp only
  split_ifs <;> rfl

theorem var_stats_counts (c : SolveFeaturesCalc) :
    (calculate_variable_stats c).feat.counts = c.feat.counts
      ∧ (calculate_variable_stats c).myVars = c.myVars := by
  unfold calculate_variable_stats
  split_ifs
  · exact ⟨rfl, rfl⟩
  · exact ⟨(var_stats_finish_counts _).trans (var_stats_fold_counts _ _), rfl⟩

theorem extra_clause_onTrace_counts (sq : ℚ → ℚ) (t : List Call) (c : SolveFeaturesCalc) :
    (calculate_extra_clause_stats.onTrace sq t c).feat.counts = c.feat.counts
      ∧ (calculate_extra_clause_stats.onTrace sq t c).myVars = c.myVars := by
  refine ⟨?_, rfl⟩
  have h := replay_frame SolveFeatures.counts calculate_extra_clause_stats.each_clause
    empty_func
    (by
      intro a b c x
      unfold calculate_extra_clause_stats.each_clause
      split_ifs <;> rfl)
    (fun _ _ _ _ _ => rfl) t c.feat
  have h2 : ∀ x, (calculate_extra_clause_stats.finish sq x).counts = x.counts := by
    intro x
    unfold calculate_extra_clause_stats.finish
    dsimp only
    split_ifs <;> rfl
  exact (h2 _).trans h

theorem extra_var_counts (sq : ℚ → ℚ) (c : SolveFeaturesCalc) :
    (calculate_extra_var_stats sq c).feat.counts = c.feat.counts
      ∧ (calculate_extra_var_stats sq c).myVars = c.myVars := by
  unfold calculate_extra_var_stats
  split_ifs
  · exact ⟨rfl, rfl⟩
  · refine ⟨?_, rfl⟩
    have h2 : ∀ x, (calculate_extra_var_stats.finish sq x).counts = x.counts := by
      intro x
      unfold calculate_extra_var_stats.finish
      dsimp only
      split_ifs <;> rfl
    have h3 : ∀ (vs : List VARIABLE) (f : SolveFeatures),
        (vs.foldl calculate_extra_var_stats.body f).counts = f.counts := by
      intro vs
      induction vs with
      | nil => intro f; rfl
      | cons v vs ih =>
        intro f
        simp only [List.foldl_cons]
        refine (ih _).trans ?_
        unfold calculate_extra_var_stats.body
        split_ifs <;> rfl
    exact (h2 _).trans (h3 _ _)

/-- After the count of the active variables, no stage of `extract` changes the counts, the
variable/clause ratio or the accumulators. -/
theorem extract_onTrace_counts (sq : ℚ → ℚ) (solver : Solver) (t : List Call)
    (c : SolveFeaturesCalc) :
    (extract.onTrace sq solver t c).feat.counts
        = (extract.active_vars (fill_vars_cls.onTrace solver t c)).feat.counts
      ∧ (extract.onTrace sq solver t c).myVars = (fill_vars_cls.onTrace solver t c).myVars := by
  unfold extract.onTrace extract.firstMoments
  have d : ∀ x : SolveFeaturesCalc, (extract.distributions solver x).feat.counts = x.feat.counts
      ∧ (extract.distributions solver x).myVars = x.myVars := fun _ => ⟨rfl, rfl⟩
  have a : ∀ x : SolveFeaturesCalc, (extract.active_vars x).myVars = x.myVars :=
    fun _ => rfl
  constructor
  · rw [(d _).1, (extra_var_counts sq _).1, (extra_clause_onTrace_counts sq t _).1,
      (var_stats_counts _).1, (clause_stats_onTrace_counts solver t _).1]
  · rw [(d _).2, (extra_var_counts sq _).2, (extra_clause_onTrace_counts sq t _).2,
      (var_stats_counts _).2, (clause_stats_onTrace_counts solver t _).2, a]

theorem foldl_count_active (vs : List VARIABLE) (n : Nat) :
    vs.foldl (fun n v => if v.size > 0 then n + 1 else n) n
      = n + vs.countP VARIABLE.active := by
  induction vs generalizing n with
  | nil => simp
  | cons v vs ih =>
    simp only [List.foldl_cons, List.countP_cons, VARIABLE.active]
    rw [ih]
    by_cases h : v.size > 0
    · simp [h]; omega
    · simp [h]

theorem active_vars_feat (c : SolveFeaturesCalc) :
    (extract.active_vars c).feat.numVars = c.myVars.countP VARIABLE.active
      ∧ (extract.active_vars c).feat.numClauses = c.feat.numClauses
      ∧ (0 < c.myVars.countP VARIABLE.active →
          (extract.active_vars c).feat.var_cl_ratio
            = Dbl.ofNat (c.myVars.countP VARIABLE.active) / Dbl.ofNat c.feat.numClauses)
      ∧ (c.myVars.countP VARIABLE.active = 0 →
          (extract.active_vars c).feat.var_cl_ratio = c.feat.var_cl_ratio) := by
  have hc := foldl_count_active c.myVars 0
  rw [Nat.zero_add] at hc
  unfold extract.active_vars
  dsimp only
  rw [hc]
  split_ifs with h
  · exact ⟨rfl, rfl, fun _ => rfl, fun h0 => absurd h0 (by omega)⟩
  · exact ⟨rfl, rfl, fun hp => absurd hp h, fun _ => rfl⟩

theorem fill_onTrace_frame (solver : Solver) (t : List Call) (c : SolveFeaturesCalc) :
    (fill_vars_cls.onTrace solver t c).feat.numClauses
        = solver.longIrredCls.length + solver.binTri.irredBins + solver.binTri.irredTris
      ∧ (fill_vars_cls.onTrace solver t c).feat.var_cl_ratio = c.feat.var_cl_ratio := by
  have h := replay_frame (fun x : SolveFeaturesCalc => (x.feat.numClauses, x.feat.var_cl_ratio))
    fill_vars_cls.func_each_cl fill_vars_cls.func_each_lit
    (by
      intro a b c x
      unfold fill_vars_cls.func_each_cl
      split_ifs <;> rfl)
    (fun _ _ _ _ _ => rfl) t
    { feat := { { c.feat with numVars := solver.nVars } with
        numClauses := solver.longIrredCls.length + solver.binTri.irredBins
          + solver.binTri.irredTris }
      myVars := resize c.myVars solver.nVars }
  simp only [Prod.mk.injEq] at h
  exact h

/-- C14: when the traversal does not abort, `extract` returns a record whose `numVars` is the
number of accumulators with an occurrence count greater than zero after the accumulation
pass (not the variable count of the solver) and whose `numClauses` is the sum of the three
aggregate counters; `var_cl_ratio` is the quotient `numVars / numClauses` of the two as
doubles when that count is positive, and keeps the value it had in the calculator (the default
of a fresh one) when no variable is active. -/
theorem C14_numVars_counts_active_variables (sq : ℚ → ℚ) (ndebug : Bool) (solver : Solver)
    (t : List Call) (t0 t1 : Dbl) (c : SolveFeaturesCalc)
    (hT : allTrace ndebug solver = .ok t) :
    ∃ e : Extracted, extract sq ndebug solver t0 t1 c = .ok e
      ∧ e.after.myVars = (fill_vars_cls.onTrace solver t c).myVars
      ∧ e.result.numVars = e.after.myVars.countP VARIABLE.active
      ∧ e.result.numClauses
          = solver.longIrredCls.length + solver.binTri.irredBins + solver.binTri.irredTris
      ∧ (0 < e.result.numVars →
          e.result.var_cl_ratio = Dbl.ofNat e.result.numVars / Dbl.ofNat e.result.numClauses)
      ∧ (0 < e.result.numVars → 0 < e.result.numClauses →
          e.result.var_cl_ratio = .fin ((e.result.numVars : ℚ) / e.result.numClauses))
      ∧ (e.result.numVars = 0 → e.result.var_cl_ratio = c.feat.var_cl_ratio) := by
  refine ⟨_, extract_ok sq ndebug solver t hT t0 t1 c, ?_⟩
  dsimp only
  obtain ⟨hk, hm⟩ := extract_onTrace_counts sq solver t c
  simp only [SolveFeatures.counts, Prod.mk.injEq] at hk
  obtain ⟨k1, k2, k3⟩ := hk
  obtain ⟨a1, a2, a3, a4⟩ := active_vars_feat (fill_vars_cls.onTrace solver t c)
  obtain ⟨f1, f2⟩ := fill_onTrace_frame solver t c
  rw [k1, k2, k3, hm, a1, a2, f1]
  refine ⟨rfl, rfl, rfl, ?_, ?_, ?_⟩
  · intro hp
    rw [a3 hp, f1]
  · intro hp hq
    rw [a3 hp, f1, Dbl.ofNat, Dbl.ofNat, Dbl.div_fin]
    exact_mod_cast hq.ne'
  · intro h0
    rw [a4 h0, f2]

/-- Witness of C14: the state `exBinaryThreeVars` has three variables, of which the two of
the clause `(x0 or x1)` are active; `numVars` is 2 and the ratio is `2 / 1`. -/
theorem C14_numVars_counts_active_variables_witness :
    ∃ e : Extracted, extract (fun _ => 0) false exBinaryThreeVars (.fin 0) (.fin 0) freshCalc
        = .ok e
      ∧ exBinaryThreeVars.nVars = 3 ∧ e.after.myVars = [⟨1, 1, 0⟩, ⟨1, 1, 0⟩, ⟨0, 0, 0⟩]
      ∧ e.result.numVars = 2 ∧ e.result.numClauses = 1
      ∧ e.result.var_cl_ratio = .fin 2 := by
  obtain ⟨e, h1, h2, h3, h4, _, h6, _⟩ :=
    C14_numVars_counts_active_variables (fun _ => 0) false exBinaryThreeVars
      [.each_cl 2 2 0, .each_lit ⟨0⟩ 2 2 0, .each_lit ⟨2⟩ 2 2 0] (.fin 0) (.fin 0) freshCalc
      (by decide)
  have hm : e.after.myVars = [⟨1, 1, 0⟩, ⟨1, 1, 0⟩, ⟨0, 0, 0⟩] := by rw [h2]; decide!
  have hn : e.result.numVars = 2 := by rw [h3, hm]; decide
  have hc : e.result.numClauses = 1 := by rw [h4]; decide
  refine ⟨e, h1, rfl, hm, hn, hc, ?_⟩
  rw [h6 (by omega) (by omega), hn, hc]
  norm_num

/-! ## C19: the invariant of the accumulation pass -/

theorem modifyAt_modifyAt {α : Type} (f g : α → α) (i : Nat) (l : List α) :
    modifyAt f i (modifyAt g i l) = modifyAt (fun x => f (g x)) i l := by
  induction l generalizing i with
  | nil => cases i <;> rfl
  | cons a l ih =>
    cases i with
    | zero => rfl
    | succ n => simp only [modifyAt, ih]

theorem mem_modifyAt {α : Type} (f : α → α) (i : Nat) (l : List α) (x : α)
    (h : x ∈ modifyAt f i l) : x ∈ l ∨ ∃ u ∈ l, x = f u := by
  induction l generalizing i with
  | nil => cases i <;> simp [modifyAt] at h
  | cons a l ih =>
    cases i with
    | zero =>
      simp only [modifyAt, List.mem_cons] at h
      rcases h with h | h
      · exact Or.inr ⟨a, List.mem_cons_self _ _, h⟩
      · exact Or.inl (List.mem_cons_of_mem _ h)
    | succ n =>
      simp only [modifyAt, List.mem_cons] at h
      rcases h with h | h
      · exact Or.inl (h ▸ List.mem_cons_self _ _)
      · rcases ih n h with h2 | ⟨u, hu, hx⟩
        · exact Or.inl (List.mem_cons_of_mem _ h2)
        · exact Or.inr ⟨u, List.mem_cons_of_mem _ hu, hx⟩

theorem modifyAt_bounded (f : VARIABLE → VARIABLE) (hf : ∀ v, v.bounded → (f v).bounded)
    (i : Nat) (l : List VARIABLE) (h : ∀ v ∈ l, v.bounded) :
    ∀ v ∈ modifyAt f i l, v.bounded := by
  intro v hv
  rcases mem_modifyAt f i l v hv with h1 | ⟨u, hu, hx⟩
  · exact h v h1
  · rw [hx]; exact hf u (h u hu)

theorem fill_each_lit_bounded (lit : Lit) (a b c : Nat) (x : SolveFeaturesCalc)
    (h : ∀ v ∈ x.myVars, v.bounded) :
    ∀ v ∈ (fill_vars_cls.func_each_lit lit a b c x).myVars, v.bounded := by
  unfold fill_vars_cls.func_each_lit
  dsimp only
  split_ifs
  · rw [modifyAt_modifyAt, modifyAt_modifyAt]
    refine modifyAt_bounded _ ?_ _ _ h
    rintro v ⟨h1, h2⟩
    constructor <;> dsimp only <;> omega
  · rw [modifyAt_modifyAt]
    refine modifyAt_bounded _ ?_ _ _ h
    rintro v ⟨h1, h2⟩
    constructor <;> dsimp only <;> omega
  · rw [modifyAt_modifyAt]
    refine modifyAt_bounded _ ?_ _ _ h
    rintro v ⟨h1, h2⟩
    constructor <;> dsimp only <;> omega
  · refine modifyAt_bounded _ ?_ _ _ h
    rintro v ⟨h1, h2⟩
    constructor <;> dsimp only <;> omega

theorem fill_each_cl_myVars (a b c : Nat) (x : SolveFeaturesCalc) :
    (fill_vars_cls.func_each_cl a b c x).myVars = x.myVars := by
  unfold fill_vars_cls.func_each_cl
  split_ifs <;> rfl

theorem replay_fill_bounded (t : List Call) (x : SolveFeaturesCalc)
    (h : ∀ v ∈ x.myVars, v.bounded) :
    ∀ v ∈ (replay fill_vars_cls.func_each_cl fill_vars_cls.func_each_lit x t).myVars,
      v.bounded := by
  induction t generalizing x with
  | nil => exact h
  | cons call t ih =>
    cases call with
    | each_cl a b c =>
      simp only [replay, List.foldl_cons, Call.apply] at ih ⊢
      exact ih _ (by rw [fill_each_cl_myVars]; exact h)
    | each_lit l a b c =>
      simp only [replay, List.foldl_cons, Call.apply] at ih ⊢
      exact ih _ (fill_each_lit_bounded l a b c x h)

theorem resize_bounded (vs : List VARIABLE) (n : Nat) (h : ∀ v ∈ vs, v.bounded) :
    ∀ v ∈ resize vs n, v.bounded := by
  intro v hv
  simp only [resize, List.mem_append, List.mem_replicate] at hv
  rcases hv with hv | ⟨_, hv⟩
  · exact h v (List.mem_of_mem_take hv)
  · rw [hv]; exact ⟨Nat.le_refl _, Nat.le_refl _⟩

/-- C19: when the traversal does not abort, `fill_vars_cls` started from accumulators that
satisfy `numPos <= size` and `horn <= size` (in particular from zeroed or freshly allocated
ones) returns accumulators that all satisfy `numPos <= size` and `horn <= size`; hence for
every active variable the ratio `0.5 + (2 * numPos - size) / (2 * size)` is a finite value
within `[0, 1]`. -/
theorem C19_accumulators_stay_bounded (ndebug : Bool) (solver : Solver) (t : List Call)
    (c : SolveFeaturesCalc) (hT : allTrace ndebug solver = .ok t)
    (h0 : ∀ v ∈ c.myVars, v.numPos ≤ v.size ∧ v.horn ≤ v.size) :
    ∃ c2 : SolveFeaturesCalc, fill_vars_cls ndebug solver c = .ok c2
      ∧ ∀ v ∈ c2.myVars, v.numPos ≤ v.size ∧ v.horn ≤ v.size
        ∧ (v.size > 0 → ∃ q : ℚ, pnr (Dbl.ofNat v.numPos) (Dbl.ofNat v.size) = .fin q
            ∧ 0 ≤ q ∧ q ≤ 1) := by
  refine ⟨_, fill_vars_cls_ok ndebug solver t hT c, ?_⟩
  intro v hv
  have hb : v.bounded := by
    unfold fill_vars_cls.onTrace at hv
    exact replay_fill_bounded t _ (resize_bounded _ _ h0) v hv
  refine ⟨hb.1, hb.2, fun hs => ⟨(v.numPos : ℚ) / v.size, pnr_fin _ _ hs, ?_, ?_⟩⟩
  · positivity
  · have h1 : (0 : ℚ) < v.size := by exact_mod_cast hs
    rw [div_le_one h1]
    exact_mod_cast hb.1

/-- Witness of C19: the accumulation pass of the state holding `(x0 or x1)`, started from a
fresh calculator. -/
theorem C19_accumulators_stay_bounded_witness :
    ∃ c2 : SolveFeaturesCalc, fill_vars_cls false exBinary freshCalc = .ok c2
      ∧ ∀ v ∈ c2.myVars, v.numPos ≤ v.size ∧ v.horn ≤ v.size := by
  obtain ⟨c2, h1, h2⟩ := C19_accumulators_stay_bounded false exBinary
    [.each_cl 2 2 0, .each_lit ⟨0⟩ 2 2 0, .each_lit ⟨2⟩ 2 2 0] freshCalc (by decide)
    (by intro v hv; cases hv)
  exact ⟨c2, h1, fun v hv => ⟨(h2 v hv).1, (h2 v hv).2.1⟩⟩

/-! ## C18: the variable-side means -/

theorem ratioSum_cons (v : VARIABLE) (vs : List VARIABLE) (r : VARIABLE → ℚ) :
    ratioSum (v :: vs) r = (if v.size = 0 then 0 else r v) + ratioSum vs r := by
  unfold ratioSum
  by_cases h : v.size = 0
  · simp [List.filter_cons, VARIABLE.active, h]
  · have : v.size > 0 := Nat.pos_of_ne_zero h
    simp [List.filter_cons, VARIABLE.active, h, this]

theorem var_body_inactive (f : SolveFeatures) (v : VARIABLE) (h : v.size = 0) :
    calculate_variable_stats.body f v = f := by
  unfold calculate_variable_stats.body
  rw [if_pos h]

theorem var_body_means (f : SolveFeatures) (v : VARIABLE) (h : v.size ≠ 0) :
    (calculate_variable_stats.body f v).vcg_var_mean
        = f.vcg_var_mean + Dbl.ofNat v.size / Dbl.ofNat f.numClauses
      ∧ (calculate_variable_stats.body f v).pnr_var_mean
        = f.pnr_var_mean + pnr (Dbl.ofNat v.numPos) (Dbl.ofNat v.size)
      ∧ (calculate_variable_stats.body f v).horn_mean
        = f.horn_mean + Dbl.ofNat v.horn / Dbl.ofNat f.numClauses
      ∧ (calculate_variable_stats.body f v).numClauses = f.numClauses
      ∧ (calculate_variable_stats.body f v).numVars = f.numVars := by
  unfold calculate_variable_stats.body
  rw [if_neg h]
  exact ⟨rfl, rfl, rfl, rfl, rfl⟩

theorem var_fold_means (vs : List VARIABLE) (f : SolveFeatures) (x1 x2 x3 : ℚ)
    (hC : 0 < f.numClauses) (h1 : f.vcg_var_mean = .fin x1) (h2 : f.pnr_var_mean = .fin x2)
    (h3 : f.horn_mean = .fin x3) :
    (vs.foldl calculate_variable_stats.body f).vcg_var_mean
        = .fin (x1 + ratioSum vs (fun v => (v.size : ℚ) / f.numClauses))
      ∧ (vs.foldl calculate_variable_stats.body f).pnr_var_mean
        = .fin (x2 + ratioSum vs (fun v => (v.numPos : ℚ) / v.size))
      ∧ (vs.foldl calculate_variable_stats.body f).horn_mean
        = .fin (x3 + ratioSum vs (fun v => (v.horn : ℚ) / f.numClauses))
      ∧ (vs.foldl calculate_variable_stats.body f).numVars = f.numVars := by
  induction vs generalizing f x1 x2 x3 with
  | nil => simp [ratioSum, h1, h2, h3]
  | cons v vs ih =>
    simp only [List.foldl_cons, ratioSum_cons]
    by_cases hv : v.size = 0
    · rw [var_body_inactive f v hv]
      simp only [hv, if_true, zero_add]
      exact ih f x1 x2 x3 hC h1 h2 h3
    · obtain ⟨b1, b2, b3, b4, b5⟩ := var_body_means f v hv
      have hq : (f.numClauses : ℚ) ≠ 0 := by exact_mod_cast hC.ne'
      have a1 : (calculate_variable_stats.body f v).vcg_var_mean
          = .fin (x1 + (v.size : ℚ) / f.numClauses) := by
        rw [b1, h1, Dbl.ofNat, Dbl.ofNat, Dbl.div_fin _ _ hq, Dbl.add_fin]
      have a2 : (calculate_variable_stats.body f v).pnr_var_mean
          = .fin (x2 + (v.numPos : ℚ) / v.size) := by
        rw [b2, h2, pnr_fin _ _ (Nat.pos_of_ne_zero hv), Dbl.add_fin]
      have a3 : (calculate_variable_stats.body f v).horn_mean
          = .fin (x3 + (v.horn : ℚ) / f.numClauses) := by
        rw [b3, h3, Dbl.ofNat, Dbl.ofNat, Dbl.div_fin _ _ hq, Dbl.add_fin]
      have := ih (calculate_variable_stats.body f v) _ _ _ (by rw [b4]; exact hC) a1 a2 a3
      rw [b4, b5] at this
      simp only [hv, if_false]
      obtain ⟨r1, r2, r3, r4⟩ := this
      refine ⟨?_, ?_, ?_, r4⟩
      · rw [r1]; congr 1; ring
      · rw [r2]; congr 1; ring
      · rw [r3]; congr 1; ring

theorem var_finish_means (f : SolveFeatures) :
    (calculate_variable_stats.finish f).vcg_var_mean
        = (if Dbl.gt f.vcg_var_mean (.fin 0) then f.vcg_var_mean / Dbl.ofNat f.numVars
          else f.vcg_var_mean)
      ∧ (calculate_variable_stats.finish f).pnr_var_mean
        = (if Dbl.gt f.pnr_var_mean (.fin 0) then f.pnr_var_mean / Dbl.ofNat f.numVars
          else f.pnr_var_mean)
      ∧ (calculate_variable_stats.finish f).horn_mean
        = (if Dbl.gt f.horn_mean (.fin 0) then f.horn_mean / Dbl.ofNat f.numVars
          else f.horn_mean) := by
  unfold calculate_variable_stats.finish
  dsimp only
  split_ifs <;> exact ⟨rfl, rfl, rfl⟩

theorem ratioSum_nonneg (vs : List VARIABLE) (r : VARIABLE → ℚ) (hr : ∀ v, 0 ≤ r v) :
    0 ≤ ratioSum vs r := by
  unfold ratioSum
  apply List.sum_nonneg
  intro x hx
  simp only [List.mem_map] at hx
  obtain ⟨v, _, rfl⟩ := hx
  exact hr v

theorem finish_mean_fin (s : ℚ) (n : Nat) (hn : 0 < n) (hs : 0 ≤ s) :
    (if Dbl.gt (.fin s) (.fin 0) then Dbl.fin s / Dbl.ofNat n else Dbl.fin s)
      = claimedMean s n := by
  have hq : (n : ℚ) ≠ 0 := by exact_mod_cast hn.ne'
  unfold claimedMean
  by_cases h : 0 < s
  · simp [Dbl.gt, Dbl.lt_fin, h, Dbl.ofNat, Dbl.div_fin _ _ hq]
  · have : s = 0 := le_antisymm (not_lt.mp h) hs
    simp [Dbl.gt, Dbl.lt_fin, this]

/-- C18: on a record whose variable-side means are still 0, with `numClauses > 0` and
`numVars` the positive number of active variables, `calculate_variable_stats` leaves in
`vcg_var_mean`, `pnr_var_mean` and `horn_mean` the sum over the active variables of
`size / numClauses`, of `numPos / size` (the positive/negative ratio) and of
`horn / numClauses`, divided by the number of active variables when the sum is positive, and
0 when it is not; an accumulator with occurrence count 0 leaves the record untouched. -/
theorem C18_variable_means (c : SolveFeaturesCalc)
    (hm1 : c.feat.vcg_var_mean = .fin 0) (hm2 : c.feat.pnr_var_mean = .fin 0)
    (hm3 : c.feat.horn_mean = .fin 0) (hC : 0 < c.feat.numClauses)
    (hN : 0 < c.feat.numVars)
    (hact : c.feat.numVars = (c.myVars.filter VARIABLE.active).length) :
    (calculate_variable_stats c).feat.vcg_var_mean
        = claimedMean (ratioSum c.myVars (fun v => (v.size : ℚ) / c.feat.numClauses))
            (c.myVars.filter VARIABLE.active).length
      ∧ (calculate_variable_stats c).feat.pnr_var_mean
        = claimedMean (ratioSum c.myVars (fun v => (v.numPos : ℚ) / v.size))
            (c.myVars.filter VARIABLE.active).length
      ∧ (calculate_variable_stats c).feat.horn_mean
        = claimedMean (ratioSum c.myVars (fun v => (v.horn : ℚ) / c.feat.numClauses))
            (c.myVars.filter VARIABLE.active).length
      ∧ ∀ (f : SolveFeatures) (v : VARIABLE), v.size = 0 →
          calculate_variable_stats.body f v = f := by
  obtain ⟨s1, s2, s3, s4⟩ := var_fold_means c.myVars c.feat 0 0 0 hC hm1 hm2 hm3
  obtain ⟨f1, f2, f3⟩ :=
    var_finish_means (c.myVars.foldl calculate_variable_stats.body c.feat)
  have e : (calculate_variable_stats c).feat
      = calculate_variable_stats.finish (c.myVars.foldl calculate_variable_stats.body c.feat) := by
    unfold calculate_variable_stats
    rw [if_neg (by omega)]
  rw [e, f1, f2, f3, s1, s2, s3, s4, zero_add, zero_add, zero_add, ← hact]
  refine ⟨finish_mean_fin _ _ hN (ratioSum_nonneg _ _ fun v => by positivity),
    finish_mean_fin _ _ hN (ratioSum_nonneg _ _ fun v => by positivity),
    finish_mean_fin _ _ hN (ratioSum_nonneg _ _ fun v => by positivity),
    var_body_inactive⟩

/-- Witness of C18: the calculator of the state holding `(x0 or x1)` when `extract` reaches
`calculate_variable_stats`; both variables have occurrence ratio 1. -/
theorem C18_variable_means_witness :
    (calculate_variable_stats exBinaryClauseStats).feat.vcg_var_mean = .fin 1
      ∧ claimedMean
          (ratioSum exBinaryClauseStats.myVars
            (fun v => (v.size : ℚ) / exBinaryClauseStats.feat.numClauses))
          (exBinaryClauseStats.myVars.filter VARIABLE.active).length = .fin 1 := by
  have h := (C18_variable_means exBinaryClauseStats (by decide!) (by decide!) (by decide!)
    (by decide!) (by decide!) (by decide!)).1
  have v : (calculate_variable_stats exBinaryClauseStats).feat.vcg_var_mean = .fin 1 := by
    decide!
  exact ⟨v, by rw [← h, v]⟩

/-! ## C20: the divisor of the per-clause size ratio -/

theorem foldlM_trace_mem {α : Type} (stepT : List Call → α → Except Fault (List Call))
    (tr : α → Except Fault (List Call))
    (hT : ∀ t a, stepT t a = (tr a).map (fun u => t ++ u))
    (l : List α) (t0 t : List Call) (h : l.foldlM stepT t0 = .ok t) (x : Call) :
    x ∈ t ↔ x ∈ t0 ∨ ∃ a ∈ l, ∃ ta, tr a = .ok ta ∧ x ∈ ta := by
  induction l generalizing t0 with
  | nil =>
    simp only [List.foldlM_nil, pure, Except.pure, Except.ok.injEq] at h
    simp [h]
  | cons a l ih =>
    simp only [List.foldlM_cons, hT] at h
    cases hta : tr a with
    | error e => rw [hta] at h; simp [Except.map, bind, Except.bind] at h
    | ok ta =>
      rw [hta] at h
      simp only [Except.map, bind, Except.bind] at h
      rw [ih (t0 ++ ta) h]
      simp only [List.mem_append, List.mem_cons]
      constructor
      · rintro (h1 | h1)
        · rcases h1 with h1 | h1
          · exact Or.inl h1
          · exact Or.inr ⟨a, Or.inl rfl, ta, hta, h1⟩
        · obtain ⟨b, hb, tb, htb, hx⟩ := h1
          exact Or.inr ⟨b, Or.inr hb, tb, htb, hx⟩
      · rintro (h1 | ⟨b, hb, tb, htb, hx⟩)
        · exact Or.inl (Or.inl h1)
        · rcases hb with hb | hb
          · rw [hb, hta] at htb
            cases htb
            exact Or.inl (Or.inr hx)
          · exact Or.inr ⟨b, hb, tb, htb, hx⟩

theorem foldlM_trace_all_ok {α : Type} (stepT : List Call → α → Except Fault (List Call))
    (tr : α → Except Fault (List Call))
    (hT : ∀ t a, stepT t a = (tr a).map (fun u => t ++ u))
    (l : List α) (t0 t : List Call) (h : l.foldlM stepT t0 = .ok t) :
    ∀ a ∈ l, ∃ ta, tr a = .ok ta := by
  induction l generalizing t0 with
  | nil => intro a ha; cases ha
  | cons b l ih =>
    simp only [List.foldlM_cons, hT] at h
    cases htb : tr b with
    | error e => rw [htb] at h; simp [Except.map, bind, Except.bind] at h
    | ok tb =>
      rw [htb] at h
      simp only [Except.map, bind, Except.bind] at h
      intro a ha
      rcases List.mem_cons.mp ha with ha | ha
      · rw [ha]; exact ⟨tb, htb⟩
      · exact ih (t0 ++ tb) h a ha

theorem litTrace_rec (ndebug : Bool) (solver : Solver) (i : Nat) (t : List Call) :
    (solver.watchesOf i).foldlM (fun t w =>
        for_one_clause ndebug solver w (Lit.toLit i) Call.rec_cl Call.rec_lit t) t
      = (litTrace ndebug solver i).map (fun u => t ++ u) := by
  rw [lit_replay ndebug solver Call.rec_cl Call.rec_lit i t]
  congr 1
  funext u
  exact replay_rec t u

/-- An invocation of a traversal is an invocation of one watch entry of one literal. -/
theorem allTrace_mem (ndebug : Bool) (solver : Solver) (t : List Call)
    (h : allTrace ndebug solver = .ok t) (x : Call) :
    x ∈ t ↔ ∃ i < solver.nVars * 2, ∃ w ∈ solver.watchesOf i, ∃ tw,
      oneTrace ndebug solver w (Lit.toLit i) = .ok tw ∧ x ∈ tw := by
  have h1 := foldlM_trace_mem
    (fun t i => (solver.watchesOf i).foldlM (fun t w =>
        for_one_clause ndebug solver w (Lit.toLit i) Call.rec_cl Call.rec_lit t) t)
    (fun i => litTrace ndebug solver i)
    (fun t i => litTrace_rec ndebug solver i t)
    (List.range (solver.nVars * 2)) [] t h x
  rw [h1]
  simp only [List.not_mem_nil, false_or, List.mem_range]
  constructor
  · rintro ⟨i, hi, ti, hti, hx⟩
    have h2 := foldlM_trace_mem
      (fun t w => for_one_clause ndebug solver w (Lit.toLit i) Call.rec_cl Call.rec_lit t)
      (fun w => oneTrace ndebug solver w (Lit.toLit i))
      (fun t w => for_one_clause_rec ndebug solver w (Lit.toLit i) t)
      (solver.watchesOf i) [] ti hti x
    rw [h2] at hx
    simp only [List.not_mem_nil, false_or] at hx
    obtain ⟨w, hw, tw, htw, hxw⟩ := hx
    exact ⟨i, hi, w, hw, tw, htw, hxw⟩
  · rintro ⟨i, hi, w, hw, tw, htw, hxw⟩
    have hok : ∃ ti, litTrace ndebug solver i = .ok ti :=
      foldlM_trace_all_ok
        (fun t i => (solver.watchesOf i).foldlM (fun t w =>
            for_one_clause ndebug solver w (Lit.toLit i) Call.rec_cl Call.rec_lit t) t)
        (fun i => litTrace ndebug solver i)
        (fun t i => litTrace_rec ndebug solver i t)
        (List.range (solver.nVars * 2)) [] t h i (List.mem_range.mpr hi)
    obtain ⟨ti, hti⟩ := hok
    refine ⟨i, hi, ti, hti, ?_⟩
    have h2 := foldlM_trace_mem
      (fun t w => for_one_clause ndebug solver w (Lit.toLit i) Call.rec_cl Call.rec_lit t)
      (fun w => oneTrace ndebug solver w (Lit.toLit i))
      (fun t w => for_one_clause_rec ndebug solver w (Lit.toLit i) t)
      (solver.watchesOf i) [] ti hti x
    rw [h2]
    exact Or.inr ⟨w, hw, tw, htw, hxw⟩

theorem oneTrace_shape (ndebug : Bool) (solver : Solver) (w : Watched) (lit : Lit)
    (tw : List Call) (h : oneTrace ndebug solver w lit = .ok tw) :
    tw = [] ∨ ∃ p n, tw = callsOf (entryLits solver w lit).length p n
      (entryLits solver w lit) := by
  cases w with
  | binary lit2 red =>
    simp only [oneTrace, for_one_clause] at h
    split_ifs at h
    · cases h; exact Or.inl rfl
    · cases h; exact Or.inl rfl
    · cases h; exact Or.inr ⟨_, _, rfl⟩
  | tertiary lit2 lit3 red =>
    simp only [oneTrace, for_one_clause] at h
    split_ifs at h
    · cases h; exact Or.inl rfl
    · cases h; exact Or.inl rfl
    · cases h; exact Or.inr ⟨_, _, rfl⟩
  | clause offset =>
    simp only [oneTrace, for_one_clause] at h
    split_ifs at h
    · cases h; exact Or.inl rfl
    · cases h; exact Or.inl rfl
    · rw [foldl_lit_replay Call.rec_cl Call.rec_lit, replay_rec] at h
      cases h
      exact Or.inr ⟨_, _, rfl⟩
  | idx i => simp [oneTrace, for_one_clause] at h

/-- A per-clause invocation with `size > 0` comes with a per-literal invocation, with the
same triple, of a literal of the clause. -/
theorem allTrace_each_cl_has_lit (ndebug : Bool) (solver : Solver) (t : List Call)
    (h : allTrace ndebug solver = .ok t) (hr : solver.litsInRange) (size pos neg : Nat)
    (hx : Call.each_cl size pos neg ∈ t) (hs : 0 < size) :
    ∃ l : Lit, l.var < solver.nVars ∧ Call.each_lit l size pos neg ∈ t := by
  obtain ⟨i, hi, w, hw, tw, htw, hxw⟩ := (allTrace_mem ndebug solver t h _).mp hx
  rcases oneTrace_shape ndebug solver w _ tw htw with h0 | ⟨p, n, hc⟩
  · rw [h0] at hxw; cases hxw
  · rw [hc] at hxw
    simp only [callsOf, List.mem_cons, Call.each_cl.injEq, List.mem_map, reduceCtorEq,
      and_false, exists_false, or_false] at hxw
    obtain ⟨e1, e2, e3⟩ := hxw
    have hl : entryLits solver w (Lit.toLit i) ≠ [] := by
      intro h0
      rw [h0] at e1
      simp at e1
      omega
    obtain ⟨l, hlm⟩ := List.exists_mem_of_ne_nil _ hl
    refine ⟨l, hr i hi w hw l hlm, (allTrace_mem ndebug solver t h _).mpr
      ⟨i, hi, w, hw, tw, htw, ?_⟩⟩
    rw [hc, e1, e2, e3, ← e1]
    simp only [callsOf, List.mem_cons, List.mem_map]
    exact Or.inr ⟨l, hlm, rfl⟩

theorem length_modifyAt {α : Type} (f : α → α) (i : Nat) (l : List α) :
    (modifyAt f i l).length = l.length := by
  induction l generalizing i with
  | nil => cases i <;> rfl
  | cons a l ih => cases i <;> simp [modifyAt, ih]

theorem sizeAt_modifyAt_le (f : VARIABLE → VARIABLE) (hf : ∀ v, v.size ≤ (f v).size)
    (i j : Nat) (vs : List VARIABLE) : sizeAt vs j ≤ sizeAt (modifyAt f i vs) j := by
  induction vs generalizing i j with
  | nil => cases i <;> simp [modifyAt, sizeAt]
  | cons a l ih =>
    cases i with
    | zero =>
      cases j with
      | zero => exact hf a
      | succ m => exact Nat.le_refl _
    | succ n =>
      cases j with
      | zero => exact Nat.le_refl _
      | succ m => exact ih n m

theorem sizeAt_modifyAt_pos (f : VARIABLE → VARIABLE) (hf : ∀ v, 0 < (f v).size)
    (j : Nat) (vs : List VARIABLE) (hj : j < vs.length) :
    0 < sizeAt (modifyAt f j vs) j := by
  induction vs generalizing j with
  | nil => cases hj
  | cons a l ih =>
    cases j with
    | zero => exact hf a
    | succ m => exact ih m (Nat.lt_of_succ_lt_succ hj)

theorem sizeAt_pos_mem (vs : List VARIABLE) (j : Nat) (h : 0 < sizeAt vs j) :
    ∃ v ∈ vs, 0 < v.size := by
  induction vs generalizing j with
  | nil => simp [sizeAt] at h
  | cons a l ih =>
    cases j with
    | zero => exact ⟨a, List.mem_cons_self _ _, h⟩
    | succ m =>
      obtain ⟨v, hv, hp⟩ := ih m h
      exact ⟨v, List.mem_cons_of_mem _ hv, hp⟩

theorem fill_each_lit_sizeAt (lit : Lit) (a b c : Nat) (x : SolveFeaturesCalc) :
    (fill_vars_cls.func_each_lit lit a b c x).myVars.length = x.myVars.length
      ∧ (∀ j, sizeAt x.myVars j ≤ sizeAt (fill_vars_cls.func_each_lit lit a b c x).myVars j)
      ∧ (lit.var < x.myVars.length →
          0 < sizeAt (fill_vars_cls.func_each_lit lit a b c x).myVars lit.var) := by
  unfold fill_vars_cls.func_each_lit
  dsimp only
  split_ifs
  · rw [modifyAt_modifyAt, modifyAt_modifyAt]
    exact ⟨length_modifyAt _ _ _,
      fun j => sizeAt_modifyAt_le _ (fun v => Nat.le_succ _) _ _ _,
      fun h => sizeAt_modifyAt_pos _ (fun v => Nat.succ_pos _) _ _ h⟩
  · rw [modifyAt_modifyAt]
    exact ⟨length_modifyAt _ _ _,
      fun j => sizeAt_modifyAt_le _ (fun v => Nat.le_succ _) _ _ _,
      fun h => sizeAt_modifyAt_pos _ (fun v => Nat.succ_pos _) _ _ h⟩
  · rw [modifyAt_modifyAt]
    exact ⟨length_modifyAt _ _ _,
      fun j => sizeAt_modifyAt_le _ (fun v => Nat.le_succ _) _ _ _,
      fun h => sizeAt_modifyAt_pos _ (fun v => Nat.succ_pos _) _ _ h⟩
  · exact ⟨length_modifyAt _ _ _,
      fun j => sizeAt_modifyAt_le _ (fun v => Nat.le_succ _) _ _ _,
      fun h => sizeAt_modifyAt_pos _ (fun v => Nat.succ_pos _) _ _ h⟩

theorem replay_fill_sizeAt (t : List Call) (x : SolveFeaturesCalc) :
    (replay fill_vars_cls.func_each_cl fill_vars_cls.func_each_lit x t).myVars.length
        = x.myVars.length
      ∧ (∀ j, sizeAt x.myVars j
          ≤ sizeAt (replay fill_vars_cls.func_each_cl fill_vars_cls.func_each_lit x t).myVars j)
      ∧ (∀ l a b c, Call.each_lit l a b c ∈ t → l.var < x.myVars.length →
          0 < sizeAt
            (replay fill_vars_cls.func_each_cl fill_vars_cls.func_each_lit x t).myVars
            l.var) := by
  induction t generalizing x with
  | nil => exact ⟨rfl, fun _ => Nat.le_refl _, fun _ _ _ _ h => by cases h⟩
  | cons call t ih =>
    cases call with
    | each_cl a b c =>
      simp only [replay, List.foldl_cons, Call.apply] at ih ⊢
      obtain ⟨i1, i2, i3⟩ := ih (fill_vars_cls.func_each_cl a b c x)
      rw [fill_each_cl_myVars] at i1 i2 i3
      refine ⟨i1, i2, ?_⟩
      intro l a2 b2 c2 hm hl
      simp only [List.mem_cons, reduceCtorEq, false_or] at hm
      exact i3 l a2 b2 c2 hm hl
    | each_lit l0 a b c =>
      simp only [replay, List.foldl_cons, Call.apply] at ih ⊢
      obtain ⟨i1, i2, i3⟩ := ih (fill_vars_cls.func_each_lit l0 a b c x)
      obtain ⟨s1, s2, s3⟩ := fill_each_lit_sizeAt l0 a b c x
      refine ⟨i1.trans s1, fun j => (s2 j).trans (i2 j), ?_⟩
      intro l a2 b2 c2 hm hl
      simp only [List.mem_cons, Call.each_lit.injEq] at hm
      rcases hm with ⟨e1, _, _, _⟩ | hm
      · rw [e1]
        exact Nat.lt_of_lt_of_le (s3 (by rw [← e1]; exact hl)) (i2 _)
      · exact i3 l a2 b2 c2 hm (by rw [s1]; exact hl)

theorem length_resize (vs : List VARIABLE) (n : Nat) : (resize vs n).length = n := by
  simp only [resize, List.length_append, List.length_take, List.length_replicate]
  omega

/-- After the accumulation pass, a per-clause invocation with `size > 0` leaves at least one
active variable. -/
theorem active_after_fill (ndebug : Bool) (solver : Solver) (t : List Call)
    (h : allTrace ndebug solver = .ok t) (hr : solver.litsInRange) (c : SolveFeaturesCalc)
    (size pos neg : Nat) (hx : Call.each_cl size pos neg ∈ t) (hs : 0 < size) :
    0 < (extract.active_vars (fill_vars_cls.onTrace solver t c)).feat.numVars := by
  obtain ⟨l, hl, hm⟩ := allTrace_each_cl_has_lit ndebug solver t h hr size pos neg hx hs
  rw [(active_vars_feat _).1]
  unfold fill_vars_cls.onTrace
  obtain ⟨-, -, r3⟩ := replay_fill_sizeAt t
    { feat := { { c.feat with numVars := solver.nVars } with
        numClauses := solver.longIrredCls.length + solver.binTri.irredBins
          + solver.binTri.irredTris }
      myVars := resize c.myVars solver.nVars }
  have hp := r3 l size pos neg hm (by rw [length_resize]; exact hl)
  obtain ⟨v, hv, hvp⟩ := sizeAt_pos_mem _ _ hp
  exact List.countP_pos_iff.mpr ⟨v, hv, by simp [VARIABLE.active, hvp]⟩

theorem firstMoments_numVars (solver : Solver) (t : List Call) (c : SolveFeaturesCalc) :
    (extract.firstMoments solver t c).feat.numVars
      = (extract.active_vars (fill_vars_cls.onTrace solver t c)).feat.numVars := by
  unfold extract.firstMoments
  have h1 := (var_stats_counts (calculate_clause_stats.onTrace solver t
    (extract.active_vars (fill_vars_cls.onTrace solver t c)))).1
  have h2 := (clause_stats_onTrace_counts solver t
    (extract.active_vars (fill_vars_cls.onTrace solver t c))).1
  exact congrArg Prod.fst (h1.trans h2)

/-- C20: in one `extract` on a solver state whose traversal does not abort and whose watch
entries only hold literals of its variables, whenever the clause pass of
`calculate_clause_stats` or of `calculate_extra_clause_stats` invokes the per-clause callback
with `size > 0`, the record it sees has `numVars` equal to the count of active variables
computed after `fill_vars_cls`, which is greater than zero; so `size / numVars` is the finite
quotient and no division by zero occurs. -/
theorem C20_size_ratio_divisor_is_positive (ndebug : Bool) (solver : Solver) (t : List Call)
    (c : SolveFeaturesCalc) (hT : allTrace ndebug solver = .ok t)
    (hr : solver.litsInRange) (t1 t2 : List Call) (size pos neg : Nat)
    (ht : t = t1 ++ Call.each_cl size pos neg :: t2) (hs : 0 < size) :
    0 < (extract.active_vars (fill_vars_cls.onTrace solver t c)).feat.numVars
      ∧ (replay calculate_clause_stats.func_each_cl empty_func
            (extract.active_vars (fill_vars_cls.onTrace solver t c)).feat t1).numVars
          = (extract.active_vars (fill_vars_cls.onTrace solver t c)).feat.numVars
      ∧ (replay calculate_extra_clause_stats.each_clause empty_func
            (extract.firstMoments solver t c).feat t1).numVars
          = (extract.active_vars (fill_vars_cls.onTrace solver t c)).feat.numVars
      ∧ Dbl.ofNat size
            / Dbl.ofNat (extract.active_vars (fill_vars_cls.onTrace solver t c)).feat.numVars
          = .fin ((size : ℚ)
              / (extract.active_vars (fill_vars_cls.onTrace solver t c)).feat.numVars) := by
  have hx : Call.each_cl size pos neg ∈ t := by rw [ht]; simp
  have hp := active_after_fill ndebug solver t hT hr c size pos neg hx hs
  refine ⟨hp, ?_, ?_, ?_⟩
  · exact replay_frame (fun f : SolveFeatures => f.numVars)
      calculate_clause_stats.func_each_cl empty_func
      (by
        intro a b c x
        unfold calculate_clause_stats.func_each_cl
        split_ifs <;> rfl)
      (fun _ _ _ _ _ => rfl) t1 _
  · rw [← firstMoments_numVars]
    exact replay_frame (fun f : SolveFeatures => f.numVars)
      calculate_extra_clause_stats.each_clause empty_func
      (by
        intro a b c x
        unfold calculate_extra_clause_stats.each_clause
        split_ifs <;> rfl)
      (fun _ _ _ _ _ => rfl) t1 _
  · rw [Dbl.ofNat, Dbl.ofNat, Dbl.div_fin]
    exact_mod_cast hp.ne'

/-- Witness of C20: the per-clause invocation of the clause `(x0 or x1)`. -/
theorem C20_size_ratio_divisor_is_positive_witness :
    0 < (extract.active_vars (fill_vars_cls.onTrace exBinary
        [.each_cl 2 2 0, .each_lit ⟨0⟩ 2 2 0, .each_lit ⟨2⟩ 2 2 0] freshCalc)).feat.numVars :=
  (C20_size_ratio_divisor_is_positive false exBinary
    [.each_cl 2 2 0, .each_lit ⟨0⟩ 2 2 0, .each_lit ⟨2⟩ 2 2 0] freshCalc (by decide)
    (by unfold Solver.litsInRange; decide) [] [.each_lit ⟨0⟩ 2 2 0, .each_lit ⟨2⟩ 2 2 0]
    2 2 0 rfl (by decide)).1

end CMSat
